import Mathlib

/-!
Verification development for the `mcqs` asynchronous job pipeline of the
Clarytix quiz-generation service (`src/app/api/mcqs/route.ts` and its
sibling route files).  The TypeScript source is shallowly embedded below:
pure helpers become Lean functions, the stateful orchestrator becomes
explicit state passing over explicit record/database values, browser- or
network-level nondeterminism (task outcomes, validator responses, calls to
`Math.random`) becomes explicit function parameters that theorems quantify
over, and JavaScript exceptions become `Except` values.

JavaScript numbers are modelled as `Int` (for fields such as
`correct_index` that the code range-checks and that may be absent or
negative) or `Nat` (for counters and sizes that are only ever incremented
from zero).  Fractional or NaN-valued inputs are outside the model.
-/

namespace Clarytix

/-! ## Core data model (src/app/api/mcqs/jobStore.ts) -/

/-- `{ page: number | null; text_snippet: string }` — one source citation.
String-valued pages (repaired by `Number.parseInt` in the source) are
outside the model. -/
structure SourceSpan where
  page : Option Int
  text_snippet : String
  deriving Repr, DecidableEq

/-- `StoredMcqItem` from jobStore.ts.  `correct_index` is an `Int` because
the source never validates it on parse and guards every use with an
explicit range check. -/
structure StoredMcqItem where
  bloom : String
  difficulty : String
  stem : String
  options : List String
  correct_index : Int
  explanation : String
  type_ : String
  source_spans : Option (List SourceSpan)
  deriving Repr, DecidableEq

/-- `StoredTopicMcqs` from jobStore.ts: one topic name with its items. -/
structure StoredTopicMcqs where
  topic : String
  items : List StoredMcqItem
  deriving Repr, DecidableEq

/-- `const LETTERS = ["A", "B", "C", "D"]` (route.ts line 495). -/
def LETTERS : List String := ["A", "B", "C", "D"]

/-- `LETTERS[i] ?? fb` for an `Int` index: JavaScript array indexing with a
non-natural or out-of-range index yields `undefined`, so the fallback. -/
def letterAt (i : Int) (fb : String) : String :=
  if 0 ≤ i ∧ i < 4 then LETTERS.getD i.toNat fb else fb

/-! ## Error objects and `getErrorStatus` (route.ts lines 511–527) -/

/-- The shape `{ status?: unknown; response?: { status?: unknown } }` that
`getErrorStatus` probes, restricted to the numeric cases it accepts. -/
structure ErrorLike where
  status : Option Int
  responseStatus : Option Int
  deriving Repr, DecidableEq

/-- `getErrorStatus`: a falsy error gives `null`; otherwise prefer a
numeric `error.status`, then a numeric `error.response.status`. -/
def getErrorStatus (error : Option ErrorLike) : Option Int :=
  match error with
  | none => none
  | some candidate =>
    match candidate.status with
    | some s => some s
    | none => candidate.responseStatus

/-! ## Retry-with-backoff executor (route.ts lines 536–565)

The asynchronous task is embedded as a function from the attempt number
(1-based) to the outcome of invoking the task on that attempt; theorems
quantify over it, covering every possible behaviour of the wrapped
operation.  The trace collects the observable side effects: how many times
the task ran, the log lines emitted, and the sleep durations. -/

/-- Outcome of one task invocation: a value or a thrown error.  A thrown
error is an `Option ErrorLike`: `none` stands for a thrown value that
`getErrorStatus` maps to `null`. -/
inductive TaskOutcome (α : Type) where
  | ok (value : α)
  | err (error : Option ErrorLike)
  deriving Repr, DecidableEq

/-- What `retryWithBackoff` ultimately does: return the task's value,
rethrow a task error, or throw the trailing generic
`"exhausted all retry attempts"` error. -/
inductive RetryResult (α : Type) where
  | value (v : α)
  | taskError (error : Option ErrorLike)
  | exhaustedError
  deriving Repr, DecidableEq

/-- Observable trace of one `retryWithBackoff` run. -/
structure RetryTrace where
  invocations : Nat
  logLines : Nat
  waits : List Nat
  deriving Repr, DecidableEq

/-- The `for` loop of `retryWithBackoff`, with `remaining` the number of
attempts left (`maxAttempts - attempt + 1` in source terms).  `hasLog`
mirrors the `if (log)` guard around the log call. -/
def retryLoop {α : Type} (task : Nat → TaskOutcome α) (hasLog : Bool)
    (attempt remaining delay : Nat) (trace : RetryTrace) :
    RetryResult α × RetryTrace :=
  match remaining with
  | 0 => (RetryResult.exhaustedError, trace)
  | r + 1 =>
    let trace := { trace with invocations := trace.invocations + 1 }
    match task attempt with
    | TaskOutcome.ok v => (RetryResult.value v, trace)
    | TaskOutcome.err e =>
      let status := getErrorStatus e
      if status = some 429 ∧ 0 < r then
        let trace :=
          { trace with
              logLines := trace.logLines + (if hasLog then 1 else 0)
              waits := trace.waits ++ [delay] }
        retryLoop task hasLog (attempt + 1) r (delay * 2) trace
      else
        (RetryResult.taskError e, trace)

/-- `retryWithBackoff(task, { maxAttempts, initialDelayMs })`. -/
def retryWithBackoff {α : Type} (task : Nat → TaskOutcome α) (hasLog : Bool)
    (maxAttempts initialDelayMs : Nat) : RetryResult α × RetryTrace :=
  retryLoop task hasLog 1 maxAttempts initialDelayMs ⟨0, 0, []⟩

end Clarytix

namespace Clarytix

/-! ### Lemmas about the retry loop -/

theorem retryLoop_invocations_le {α : Type} (task : Nat → TaskOutcome α)
    (hasLog : Bool) :
    ∀ (r a d : Nat) (t : RetryTrace),
      (retryLoop task hasLog a r d t).2.invocations ≤ t.invocations + r := by
  intro r
  induction r with
  | zero => intro a d t; simp [retryLoop]
  | succ r ih =>
    intro a d t
    simp only [retryLoop]
    cases htask : task a with
    | ok v => dsimp only; omega
    | err e =>
      dsimp only
      by_cases hc : getErrorStatus e = some 429 ∧ 0 < r
      · rw [if_pos hc]
        have := ih (a + 1) (d * 2)
          { t with invocations := t.invocations + 1,
                   logLines := t.logLines + (if hasLog then 1 else 0),
                   waits := t.waits ++ [d] }
        simp at this ⊢
        omega
      · rw [if_neg hc]
        dsimp only
        omega

theorem retryLoop_value_origin {α : Type} (task : Nat → TaskOutcome α)
    (hasLog : Bool) :
    ∀ (r a d : Nat) (t : RetryTrace) (v : α),
      (retryLoop task hasLog a r d t).1 = RetryResult.value v →
      ∃ k, a ≤ k ∧ k < a + r ∧ task k = TaskOutcome.ok v := by
  intro r
  induction r with
  | zero => intro a d t v h; simp [retryLoop] at h
  | succ r ih =>
    intro a d t v h
    simp only [retryLoop] at h
    cases htask : task a with
    | ok w =>
      rw [htask] at h
      dsimp only at h
      simp at h
      exact ⟨a, le_refl a, by omega, by rw [htask, h]⟩
    | err e =>
      rw [htask] at h
      dsimp only at h
      by_cases hc : getErrorStatus e = some 429 ∧ 0 < r
      · rw [if_pos hc] at h
        obtain ⟨k, hk1, hk2, hk3⟩ := ih (a + 1) (d * 2) _ v h
        exact ⟨k, by omega, by omega, hk3⟩
      · rw [if_neg hc] at h
        simp at h

theorem retryLoop_error_origin {α : Type} (task : Nat → TaskOutcome α)
    (hasLog : Bool) :
    ∀ (r a d : Nat) (t : RetryTrace) (e : Option ErrorLike),
      (retryLoop task hasLog a r d t).1 = RetryResult.taskError e →
      ∃ k, a ≤ k ∧ k < a + r ∧ task k = TaskOutcome.err e ∧
        (getErrorStatus e ≠ some 429 ∨ k = a + r - 1) ∧
        ∀ j, a ≤ j → j < k →
          ∃ e', task j = TaskOutcome.err e' ∧ getErrorStatus e' = some 429 := by
  intro r
  induction r with
  | zero => intro a d t e h; simp [retryLoop] at h
  | succ r ih =>
    intro a d t e h
    simp only [retryLoop] at h
    cases htask : task a with
    | ok w => rw [htask] at h; dsimp only at h; simp at h
    | err e0 =>
      rw [htask] at h
      dsimp only at h
      by_cases hc : getErrorStatus e0 = some 429 ∧ 0 < r
      · rw [if_pos hc] at h
        obtain ⟨k, hk1, hk2, hk3, hk4, hk5⟩ := ih (a + 1) (d * 2) _ e h
        refine ⟨k, by omega, by omega, hk3, ?_, ?_⟩
        · rcases hk4 with h4 | h4
          · exact Or.inl h4
          · exact Or.inr (by omega)
        · intro j hj1 hj2
          by_cases hja : j = a
          · exact ⟨e0, by rw [hja, htask], hc.1⟩
          · exact hk5 j (by omega) hj2
      · rw [if_neg hc] at h
        simp at h
        refine ⟨a, le_refl a, by omega, by rw [htask, h], ?_, ?_⟩
        · by_cases h429 : getErrorStatus e = some 429
          · right
            rw [h, h429] at hc
            push_neg at hc
            have := hc rfl
            omega
          · exact Or.inl h429
        · intro j hj1 hj2; omega

theorem retryLoop_trace_shape {α : Type} (task : Nat → TaskOutcome α)
    (hasLog : Bool) :
    ∀ (r a d : Nat) (n l : Nat) (w : List Nat),
      ∃ m,
        (retryLoop task hasLog a r d ⟨n, l, w⟩).2.waits =
          w ++ (List.range m).map (fun i => d * 2 ^ i) ∧
        (retryLoop task hasLog a r d ⟨n, l, w⟩).2.logLines =
          l + (if hasLog then m else 0) ∧
        ((retryLoop task hasLog a r d ⟨n, l, w⟩).1 ≠ RetryResult.exhaustedError →
          (retryLoop task hasLog a r d ⟨n, l, w⟩).2.invocations = n + m + 1) := by
  intro r
  induction r with
  | zero =>
    intro a d n l w
    refine ⟨0, by simp [retryLoop], by simp [retryLoop], ?_⟩
    intro h
    simp [retryLoop] at h
  | succ r ih =>
    intro a d n l w
    simp only [retryLoop]
    cases htask : task a with
    | ok v =>
      exact ⟨0, by simp, by simp, by intro _; simp⟩
    | err e =>
      dsimp only
      by_cases hc : getErrorStatus e = some 429 ∧ 0 < r
      · rw [if_pos hc]
        obtain ⟨m, hm1, hm2, hm3⟩ := ih (a + 1) (d * 2) (n + 1)
          (l + (if hasLog then 1 else 0)) (w ++ [d])
        refine ⟨m + 1, ?_, ?_, ?_⟩
        · rw [hm1]
          have hrange : (List.range (m + 1)).map (fun i => d * 2 ^ i) =
              d * 2 ^ 0 :: (List.range m).map (fun i => d * 2 ^ (i + 1)) := by
            rw [List.range_succ_eq_map]
            simp [Function.comp]
          rw [hrange]
          have hdbl : (fun i => d * 2 ^ (i + 1)) = (fun i => d * 2 * 2 ^ i) := by
            funext i; ring
          rw [hdbl]
          simp
        · rw [hm2]
          cases hasLog <;> simp <;> omega
        · intro hne
          rw [hm3 hne]
          omega
      · rw [if_neg hc]
        exact ⟨0, by simp, by simp, by intro _; simp⟩

theorem retryLoop_not_exhausted {α : Type} (task : Nat → TaskOutcome α)
    (hasLog : Bool) :
    ∀ (r a d : Nat) (t : RetryTrace), 0 < r →
      (retryLoop task hasLog a r d t).1 ≠ RetryResult.exhaustedError := by
  intro r
  induction r with
  | zero => intro a d t h; omega
  | succ r ih =>
    intro a d t _
    simp only [retryLoop]
    cases htask : task a with
    | ok v => simp
    | err e =>
      dsimp only
      by_cases hc : getErrorStatus e = some 429 ∧ 0 < r
      · rw [if_pos hc]
        exact ih (a + 1) (d * 2) _ hc.2
      · rw [if_neg hc]; simp

end Clarytix

namespace Clarytix

/-- **C7** — The retry-with-backoff executor returns the task's value on the
first successful attempt; a 429 failure with attempts remaining logs a
line, waits the current delay, doubles it and retries; a non-429 failure,
or a 429 failure on the final attempt, propagates the task's original
error; the task is never invoked more than `maxAttempts` times. -/
theorem retryWithBackoff_contract {α : Type} (task : Nat → TaskOutcome α)
    (hasLog : Bool) (maxAttempts initialDelayMs : Nat) :
    (∀ v, task 1 = TaskOutcome.ok v → 0 < maxAttempts →
        retryWithBackoff task hasLog maxAttempts initialDelayMs =
          (RetryResult.value v, ⟨1, 0, []⟩)) ∧
    (retryWithBackoff task hasLog maxAttempts initialDelayMs).2.invocations ≤
      maxAttempts ∧
    (∀ e, (retryWithBackoff task hasLog maxAttempts initialDelayMs).1 =
        RetryResult.taskError e →
      ∃ k, 1 ≤ k ∧ k ≤ maxAttempts ∧ task k = TaskOutcome.err e ∧
        (getErrorStatus e ≠ some 429 ∨ k = maxAttempts) ∧
        ∀ j, 1 ≤ j → j < k →
          ∃ e', task j = TaskOutcome.err e' ∧ getErrorStatus e' = some 429) ∧
    (∃ m,
      (retryWithBackoff task hasLog maxAttempts initialDelayMs).2.waits =
        (List.range m).map (fun i => initialDelayMs * 2 ^ i) ∧
      (retryWithBackoff task hasLog maxAttempts initialDelayMs).2.logLines =
        (if hasLog then m else 0) ∧
      ((retryWithBackoff task hasLog maxAttempts initialDelayMs).1 ≠
          RetryResult.exhaustedError →
        (retryWithBackoff task hasLog maxAttempts initialDelayMs).2.invocations =
          m + 1)) := by
  refine ⟨?_, ?_, ?_, ?_⟩
  · intro v htask hpos
    obtain ⟨r, rfl⟩ : ∃ r, maxAttempts = r + 1 := ⟨maxAttempts - 1, by omega⟩
    simp [retryWithBackoff, retryLoop, htask]
  · have := retryLoop_invocations_le task hasLog maxAttempts 1 initialDelayMs
      ⟨0, 0, []⟩
    simpa [retryWithBackoff] using this
  · intro e he
    obtain ⟨k, hk1, hk2, hk3, hk4, hk5⟩ :=
      retryLoop_error_origin task hasLog maxAttempts 1 initialDelayMs ⟨0, 0, []⟩ e
        (by simpa [retryWithBackoff] using he)
    refine ⟨k, hk1, by omega, hk3, ?_, hk5⟩
    rcases hk4 with h | h
    · exact Or.inl h
    · exact Or.inr (by omega)
  · obtain ⟨m, hm1, hm2, hm3⟩ :=
      retryLoop_trace_shape task hasLog maxAttempts 1 initialDelayMs 0 0 []
    exact ⟨m, by simpa [retryWithBackoff] using hm1,
      by simpa [retryWithBackoff] using hm2,
      fun hne => by
        have := hm3 (by simpa [retryWithBackoff] using hne)
        simpa [retryWithBackoff] using this⟩

/-- Witness for C7: a task that returns 429-status errors twice and then a
value; the executor logs two lines, waits 2000 then 4000 ms, and returns the
value on the first successful attempt of a task that succeeds at once. -/
theorem retryWithBackoff_contract_witness :
    retryWithBackoff (fun _ => TaskOutcome.ok (7 : Nat)) true 5 2000 =
      (RetryResult.value 7, ⟨1, 0, []⟩) :=
  (retryWithBackoff_contract (fun _ => TaskOutcome.ok (7 : Nat)) true 5 2000).1
    7 rfl (by decide)

/-- **C10** — the trailing generic "exhausted all retry attempts" error is
unreachable whenever at least one attempt is allowed: every execution
either returns a value the task produced on some attempt or rethrows an
error the task threw on some attempt. -/
theorem retryWithBackoff_exhausted_unreachable {α : Type}
    (task : Nat → TaskOutcome α) (hasLog : Bool)
    (maxAttempts initialDelayMs : Nat) (h : 1 ≤ maxAttempts) :
    (∃ v k, 1 ≤ k ∧ k ≤ maxAttempts ∧
      (retryWithBackoff task hasLog maxAttempts initialDelayMs).1 =
        RetryResult.value v ∧ task k = TaskOutcome.ok v) ∨
    (∃ e k, 1 ≤ k ∧ k ≤ maxAttempts ∧
      (retryWithBackoff task hasLog maxAttempts initialDelayMs).1 =
        RetryResult.taskError e ∧ task k = TaskOutcome.err e) := by
  rcases hr : (retryWithBackoff task hasLog maxAttempts initialDelayMs).1 with
    v | e | _
  · obtain ⟨k, hk1, hk2, hk3⟩ :=
      retryLoop_value_origin task hasLog maxAttempts 1 initialDelayMs ⟨0, 0, []⟩ v
        (by simpa [retryWithBackoff] using hr)
    exact Or.inl ⟨v, k, hk1, by omega, rfl, hk3⟩
  · obtain ⟨k, hk1, hk2, hk3, _, _⟩ :=
      retryLoop_error_origin task hasLog maxAttempts 1 initialDelayMs ⟨0, 0, []⟩ e
        (by simpa [retryWithBackoff] using hr)
    exact Or.inr ⟨e, k, hk1, by omega, rfl, hk3⟩
  · exact absurd hr
      (retryLoop_not_exhausted task hasLog maxAttempts 1 initialDelayMs
        ⟨0, 0, []⟩ (by omega))

/-- Witness for C10 at a concrete failing-then-failing task and
`maxAttempts = 2`. -/
theorem retryWithBackoff_exhausted_unreachable_witness :
    (∃ v k, 1 ≤ k ∧ k ≤ 2 ∧
      (retryWithBackoff (fun _ => TaskOutcome.err (α := Nat)
        (some ⟨some 429, none⟩)) true 2 5).1 = RetryResult.value v ∧
      (fun _ => TaskOutcome.err (α := Nat) (some ⟨some 429, none⟩)) k =
        TaskOutcome.ok v) ∨
    (∃ e k, 1 ≤ k ∧ k ≤ 2 ∧
      (retryWithBackoff (fun _ => TaskOutcome.err (α := Nat)
        (some ⟨some 429, none⟩)) true 2 5).1 = RetryResult.taskError e ∧
      (fun _ => TaskOutcome.err (α := Nat) (some ⟨some 429, none⟩)) k =
        TaskOutcome.err e) :=
  retryWithBackoff_exhausted_unreachable
    (fun _ => TaskOutcome.err (some ⟨some 429, none⟩)) true 2 5 (by decide)

end Clarytix

namespace Clarytix

/-! ## Retry-flag recomputation after a failed attempt

Each `catch` handler of the orchestrator recomputes the two retry flags
from the caught error and the stored generated-content snapshot
(`record.generatedTopics`).  The four handlers are translated one by one
from route.ts. -/

/-- The pair `(allowValidationRetry, allowPersistenceRetry)`. -/
structure RetryFlags where
  allowValidationRetry : Bool
  allowPersistenceRetry : Bool
  deriving Repr, DecidableEq

/-- `Array.isArray(record.generatedTopics) && record.generatedTopics.length > 0`. -/
def snapshotNonempty (snapshot : Option (List StoredTopicMcqs)) : Bool :=
  match snapshot with
  | none => false
  | some l => decide (0 < l.length)

/-- Flag recomputation in the `catch` of `processJob`
(route.ts lines 1330–1338). -/
def processJobCatchFlags (error : Option ErrorLike)
    (snapshot : Option (List StoredTopicMcqs)) : RetryFlags :=
  if getErrorStatus error = some 529 ∧ snapshotNonempty snapshot then
    ⟨true, true⟩
  else
    ⟨false, snapshotNonempty snapshot⟩

/-- Flag recomputation in the `catch` of `retryValidation`
(route.ts lines 1401–1409). -/
def retryValidationCatchFlags (error : Option ErrorLike)
    (snapshot : Option (List StoredTopicMcqs)) : RetryFlags :=
  if getErrorStatus error = some 529 ∧ snapshotNonempty snapshot then
    ⟨true, false⟩
  else
    ⟨false, false⟩

/-- Flag recomputation in the `catch` of `retryPersistence`
(route.ts lines 1465–1474). -/
def retryPersistenceCatchFlags (error : Option ErrorLike)
    (snapshot : Option (List StoredTopicMcqs)) : RetryFlags :=
  if getErrorStatus error = some 529 ∧ snapshotNonempty snapshot then
    ⟨true, true⟩
  else
    ⟨false, snapshotNonempty snapshot⟩

/-- Flag recomputation in the persistence `catch` inside
`validateAndFinalizeJob` (route.ts lines 903–916); the caught error is
not inspected there. -/
def persistCatchFlags (snapshot : Option (List StoredTopicMcqs)) :
    RetryFlags :=
  ⟨false, snapshotNonempty snapshot⟩

/-- The four failure sites at which the flags are recomputed. -/
inductive FailurePath where
  | initialRun
  | validationRetry
  | persistenceRetry
  | persistenceCatch
  deriving Repr, DecidableEq

/-- Dispatch to the handler of each failure site. -/
def catchFlags (path : FailurePath) (error : Option ErrorLike)
    (snapshot : Option (List StoredTopicMcqs)) : RetryFlags :=
  match path with
  | FailurePath.initialRun => processJobCatchFlags error snapshot
  | FailurePath.validationRetry => retryValidationCatchFlags error snapshot
  | FailurePath.persistenceRetry => retryPersistenceCatchFlags error snapshot
  | FailurePath.persistenceCatch => persistCatchFlags snapshot

/-- The rule the claim states, written from the spec's words: a 529-style
overload with a nonempty snapshot sets both flags; a persistence-specific
failure sets only the persistence flag (when a snapshot exists); any other
failure clears both.  (Definition follows the claim, for comparison with
the code.) -/
def claimFlagRule (overload529 persistenceFailure snapNonempty : Bool) :
    RetryFlags :=
  if overload529 && snapNonempty then ⟨true, true⟩
  else if persistenceFailure && snapNonempty then ⟨false, true⟩
  else ⟨false, false⟩

/-- **C2 counterexample** — during a validation retry, an HTTP 529 error
with a nonempty snapshot sets `allowPersistenceRetry` to `false`, while the
claim's rule demands both flags `true`. -/
theorem catchFlags_claim_counterexample :
    retryValidationCatchFlags (some ⟨some 529, none⟩)
      (some [⟨"Photosynthesis", []⟩]) = ⟨true, false⟩ ∧
    claimFlagRule true false true = ⟨true, true⟩ := by
  constructor
  · rfl
  · rfl

/-- The per-site rule the code actually implements, stated uniformly. -/
def amendedFlagRule (path : FailurePath) (status : Option Int)
    (snapNonempty : Bool) : RetryFlags :=
  match path with
  | FailurePath.validationRetry =>
    if status = some 529 ∧ snapNonempty then ⟨true, false⟩ else ⟨false, false⟩
  | FailurePath.persistenceCatch => ⟨false, snapNonempty⟩
  | _ =>
    if status = some 529 ∧ snapNonempty then ⟨true, true⟩
    else ⟨false, snapNonempty⟩

/-- **C2 (amended)** — the flags are recomputed per failure site: a 529
with nonempty snapshot sets both flags in the initial run and in a
persistence retry but only the validation flag in a validation retry; a
persistence-phase failure sets only the persistence flag (when a snapshot
exists); any other failure clears the validation flag and sets the
persistence flag exactly when a snapshot exists in the initial run and
persistence retry, clearing both in a validation retry. -/
theorem catchFlags_eq_amendedFlagRule (path : FailurePath)
    (error : Option ErrorLike) (snapshot : Option (List StoredTopicMcqs)) :
    catchFlags path error snapshot =
      amendedFlagRule path (getErrorStatus error) (snapshotNonempty snapshot) := by
  cases path <;>
    simp [catchFlags, amendedFlagRule, processJobCatchFlags,
      retryValidationCatchFlags, retryPersistenceCatchFlags, persistCatchFlags]

end Clarytix

namespace Clarytix

/-! ## Answer balancer (route.ts lines 678–742)

`Math.random()` draws are modelled as explicitly supplied natural numbers:
`Math.floor(Math.random() * n)` becomes `rand % n`, covering exactly the
values `0 … n-1`; theorems quantify over all draws. -/

/-- The destructuring swap `[copy[i], copy[j]] = [copy[j], copy[i]]`. -/
def swapElems {α : Type} (l : List α) (i j : Nat) : List α :=
  match l.get? i, l.get? j with
  | some a, some b => (l.set i b).set j a
  | _, _ => l

/-- The loop of `shuffle`, from `index = copy.length - 1` down to `1`,
consuming one random draw per iteration. -/
def shuffleGo {α : Type} (copy : List α) (idx : Nat) (rands : List Nat) :
    List α :=
  match idx with
  | 0 => copy
  | i + 1 =>
    let swapIndex := rands.headD 0 % (i + 2)
    shuffleGo (swapElems copy (i + 1) swapIndex) i (rands.tailD [])

/-- `shuffle` (route.ts lines 678–685): Fisher–Yates on a copy. -/
def shuffle {α : Type} (values : List α) (rands : List Nat) : List α :=
  shuffleGo values (values.length - 1) rands

/-- `selectBalancedIndex` (route.ts lines 687–699): pick uniformly among
the indices whose count is minimal; `?? 0` covers the empty-candidate
case. -/
def selectBalancedIndex (correctCounts : List Nat) (rand : Nat) : Nat :=
  let minCount := correctCounts.min?.getD 0
  let candidates := (List.range correctCounts.length).filter
    (fun i => correctCounts.getD i 0 = minCount)
  let choice := rand % candidates.length
  candidates.getD choice 0

/-- Random draws consumed for one MCQ item: the Fisher–Yates draws for the
three distractors and the tie-breaking draw of `selectBalancedIndex`. -/
structure ItemRands where
  shuffleRands : List Nat
  pick : Nat

/-- The `newOptions` construction loop of `rebalanceCorrectOptions`
(route.ts lines 722–732): place the correct text at `desired`, fill the
other slots from `fillers` in order (`?? ""` when exhausted). -/
def buildNewOptionsGo (idxs : List Nat) (desired : Nat) (correct : String)
    (fillers : List String) (ptr : Nat) : List String :=
  match idxs with
  | [] => []
  | i :: rest =>
    if i = desired then
      correct :: buildNewOptionsGo rest desired correct fillers ptr
    else
      fillers.getD ptr "" :: buildNewOptionsGo rest desired correct fillers (ptr + 1)

def buildNewOptions (desired : Nat) (correct : String)
    (fillers : List String) : List String :=
  buildNewOptionsGo (List.range 4) desired correct fillers 0

/-- The body of `rebalanceCorrectOptions`'s `map` for one item
(route.ts lines 705–740), returning the rewritten item and the updated
count vector. -/
def rebalanceOne (mcq : StoredMcqItem) (counts : List Nat) (r : ItemRands) :
    StoredMcqItem × List Nat :=
  let options := mcq.options ++ List.replicate (4 - mcq.options.length) ""
  let originalIndex : Nat :=
    if 0 ≤ mcq.correct_index ∧ mcq.correct_index < (options.length : Int) then
      mcq.correct_index.toNat
    else 0
  let correctOption := options.getD originalIndex ""
  let otherOptions :=
    (options.enum.filter (fun p => p.1 ≠ originalIndex)).map (fun p => p.2)
  let shuffledOthers := shuffle otherOptions r.shuffleRands
  let desiredIndex := selectBalancedIndex counts r.pick
  let newOptions := buildNewOptions desiredIndex correctOption shuffledOthers
  let counts' := counts.set desiredIndex (counts.getD desiredIndex 0 + 1)
  ({ mcq with options := newOptions, correct_index := (desiredIndex : Int) },
    counts')

/-- `rebalanceCorrectOptions` (route.ts lines 701–742): map over the items
while mutating the shared count vector. -/
def rebalanceCorrectOptions :
    List StoredMcqItem → List Nat → List ItemRands →
    List StoredMcqItem × List Nat
  | [], counts, _ => ([], counts)
  | m :: ms, counts, rands =>
    let step := rebalanceOne m counts (rands.headD ⟨[], 0⟩)
    let rest := rebalanceCorrectOptions ms step.2 (rands.tailD [])
    (step.1 :: rest.1, rest.2)

/-- The balancing pass of `validateAndFinalizeJob` (route.ts lines
879–888): one shared count vector threaded through every surviving
topic. -/
def balanceTopics :
    List StoredTopicMcqs → List Nat → List (List ItemRands) →
    List StoredTopicMcqs × List Nat
  | [], counts, _ => ([], counts)
  | t :: ts, counts, rss =>
    let step := rebalanceCorrectOptions t.items counts (rss.headD [])
    let rest := balanceTopics ts step.2 (rss.tailD [])
    ({ t with items := step.1 } :: rest.1, rest.2)

end Clarytix

namespace Clarytix

/-! ### The greedy-minimum property of `selectBalancedIndex` -/

theorem nat_min_eq_or (a b : Nat) : min a b = a ∨ min a b = b := by
  rw [Nat.min_def]; split
  · exact Or.inl rfl
  · exact Or.inr rfl

theorem foldl_min_mem (t : List Nat) :
    ∀ a : Nat, t.foldl min a = a ∨ t.foldl min a ∈ t := by
  induction t with
  | nil => intro a; exact Or.inl rfl
  | cons b t ih =>
    intro a
    rcases ih (min a b) with h | h
    · rcases nat_min_eq_or a b with hm | hm
      · exact Or.inl (by rw [List.foldl_cons, h, hm])
      · exact Or.inr (by rw [List.foldl_cons, h, hm]; exact List.mem_cons_self b t)
    · exact Or.inr (List.mem_cons_of_mem b h)

theorem foldl_min_le (t : List Nat) :
    ∀ a : Nat, t.foldl min a ≤ a ∧ ∀ x ∈ t, t.foldl min a ≤ x := by
  induction t with
  | nil => intro a; exact ⟨Nat.le_refl a, by intro x hx; simp at hx⟩
  | cons b t ih =>
    intro a
    obtain ⟨h1, h2⟩ := ih (min a b)
    refine ⟨le_trans h1 (Nat.min_le_left a b), ?_⟩
    intro x hx
    rcases List.mem_cons.mp hx with rfl | hx
    · exact le_trans h1 (Nat.min_le_right a x)
    · exact h2 x hx

theorem min?_spec (l : List Nat) (h : l ≠ []) :
    ∃ m, l.min? = some m ∧ m ∈ l ∧ ∀ x ∈ l, m ≤ x := by
  match l, h with
  | a :: t, _ =>
    refine ⟨t.foldl min a, List.min?_cons', ?_, ?_⟩
    · rcases foldl_min_mem t a with h1 | h1
      · rw [h1]; exact List.mem_cons_self a t
      · exact List.mem_cons_of_mem a h1
    · intro x hx
      obtain ⟨h1, h2⟩ := foldl_min_le t a
      rcases List.mem_cons.mp hx with rfl | hx
      · exact h1
      · exact h2 x hx

theorem getD_mem_of_lt {α : Type} (l : List α) (i : Nat) (d : α)
    (h : i < l.length) : l.getD i d ∈ l := by
  rw [List.getD_eq_getElem l d h]
  exact List.getElem_mem h

/-- `selectBalancedIndex` returns an in-range index whose count is
minimal: the greedy-minimum rule, for every tie-breaking draw. -/
theorem selectBalancedIndex_spec (counts : List Nat) (rand : Nat)
    (h : counts ≠ []) :
    selectBalancedIndex counts rand < counts.length ∧
    ∀ x ∈ counts, counts.getD (selectBalancedIndex counts rand) 0 ≤ x := by
  obtain ⟨μ, hmin, hmem, hle⟩ := min?_spec counts h
  obtain ⟨i, hi, hgi⟩ := List.mem_iff_getElem.mp hmem
  have hcand_mem : i ∈ (List.range counts.length).filter
      (fun j => counts.getD j 0 = counts.min?.getD 0) := by
    rw [List.mem_filter]
    refine ⟨List.mem_range.mpr hi, ?_⟩
    simp only [decide_eq_true_eq]
    rw [hmin, Option.getD_some, List.getD_eq_getElem counts 0 hi]
    exact hgi
  set candidates := (List.range counts.length).filter
    (fun j => counts.getD j 0 = counts.min?.getD 0) with hcands
  have hlen : 0 < candidates.length :=
    List.length_pos.mpr (fun hnil => by rw [hnil] at hcand_mem; simp at hcand_mem)
  have hchoice : rand % candidates.length < candidates.length :=
    Nat.mod_lt rand hlen
  have hres_mem : candidates.getD (rand % candidates.length) 0 ∈ candidates :=
    getD_mem_of_lt candidates _ 0 hchoice
  have hres := List.mem_filter.mp hres_mem
  have hres_range := List.mem_range.mp hres.1
  have hres_min : counts.getD (candidates.getD (rand % candidates.length) 0) 0 = μ := by
    have := hres.2
    simp only [decide_eq_true_eq] at this
    rw [this, hmin]
    rfl
  constructor
  · show selectBalancedIndex counts rand < counts.length
    simp only [selectBalancedIndex]
    exact hres_range
  · intro x hx
    show counts.getD (selectBalancedIndex counts rand) 0 ≤ x
    simp only [selectBalancedIndex]
    rw [hres_min]
    exact hle x hx

/-! ### The count-vector invariant -/

/-- No entry exceeds any other by more than one. -/
def BalancedCounts (c : List Nat) : Prop := ∀ x ∈ c, ∀ y ∈ c, x ≤ y + 1

/-- Invariant carried through the balancing pass: four entries, summing to
the number of questions processed so far, pairwise within one. -/
structure CountsInv (c : List Nat) (n : Nat) : Prop where
  len : c.length = 4
  sum : c.sum = n
  bal : BalancedCounts c

theorem sum_set_succ (l : List Nat) :
    ∀ i, i < l.length → (l.set i (l.getD i 0 + 1)).sum = l.sum + 1 := by
  induction l with
  | nil => intro i h; simp at h
  | cons a t ih =>
    intro i h
    cases i with
    | zero => simp; omega
    | succ j =>
      simp only [List.set, List.getD_cons_succ, List.sum_cons]
      have := ih j (by simpa using h)
      omega

theorem balancedCounts_step (c : List Nat) (i : Nat) (hi : i < c.length)
    (hmin : ∀ x ∈ c, c.getD i 0 ≤ x) (hb : BalancedCounts c) :
    BalancedCounts (c.set i (c.getD i 0 + 1)) := by
  have hv_mem : c.getD i 0 ∈ c := getD_mem_of_lt c i 0 hi
  intro x hx y hy
  rcases List.mem_or_eq_of_mem_set hx with hx' | hx' <;>
    rcases List.mem_or_eq_of_mem_set hy with hy' | hy'
  · exact hb x hx' y hy'
  · have := hb x hx' (c.getD i 0) hv_mem
    omega
  · have := hmin y hy'
    omega
  · omega

theorem countsInv_rebalanceOne (m : StoredMcqItem) (c : List Nat)
    (r : ItemRands) (n : Nat) (inv : CountsInv c n) :
    CountsInv (rebalanceOne m c r).2 (n + 1) := by
  have hne : c ≠ [] := by
    intro hnil; rw [hnil] at inv; exact absurd inv.len (by simp)
  obtain ⟨hlt, hmin⟩ := selectBalancedIndex_spec c r.pick hne
  have heq : (rebalanceOne m c r).2 =
      c.set (selectBalancedIndex c r.pick)
        (c.getD (selectBalancedIndex c r.pick) 0 + 1) := rfl
  rw [heq]
  exact
    { len := by rw [List.length_set]; exact inv.len
      sum := by rw [sum_set_succ c _ hlt, inv.sum]
      bal := balancedCounts_step c _ hlt hmin inv.bal }

theorem countsInv_rebalance (items : List StoredMcqItem) :
    ∀ (c : List Nat) (rands : List ItemRands) (n : Nat), CountsInv c n →
      CountsInv (rebalanceCorrectOptions items c rands).2 (n + items.length) := by
  induction items with
  | nil => intro c rands n inv; simpa [rebalanceCorrectOptions] using inv
  | cons m ms ih =>
    intro c rands n inv
    simp only [rebalanceCorrectOptions]
    have step := countsInv_rebalanceOne m c (rands.headD ⟨[], 0⟩) n inv
    have := ih _ (rands.tailD []) (n + 1) step
    simpa [Nat.add_comm, Nat.add_assoc, Nat.add_left_comm] using this

theorem countsInv_balanceTopics (topics : List StoredTopicMcqs) :
    ∀ (c : List Nat) (rss : List (List ItemRands)) (n : Nat), CountsInv c n →
      CountsInv (balanceTopics topics c rss).2
        (n + (topics.map (fun t => t.items.length)).sum) := by
  induction topics with
  | nil => intro c rss n inv; simpa [balanceTopics] using inv
  | cons t ts ih =>
    intro c rss n inv
    simp only [balanceTopics]
    have step := countsInv_rebalance t.items c (rss.headD []) n inv
    have := ih _ (rss.tailD []) (n + t.items.length) step
    simp only [List.map_cons, List.sum_cons]
    simpa [Nat.add_comm, Nat.add_assoc, Nat.add_left_comm] using this

theorem countsInv_bound (c : List Nat) (n : Nat) (inv : CountsInv c n) :
    ∀ x ∈ c, x ≤ (n + 3) / 4 + 1 := by
  have hlen := inv.len
  have hsum := inv.sum
  have hbal := inv.bal
  rcases c with _ | ⟨a, _ | ⟨b, _ | ⟨c0, _ | ⟨d0, _ | ⟨e, t⟩⟩⟩⟩⟩ <;> simp at hlen
  intro x hx
  have h1 : x ≤ a + 1 := hbal x hx a (by simp)
  have h2 : x ≤ b + 1 := hbal x hx b (by simp)
  have h3 : x ≤ c0 + 1 := hbal x hx c0 (by simp)
  have h4 : x ≤ d0 + 1 := hbal x hx d0 (by simp)
  have hs : a + (b + (c0 + d0)) = n := by simpa using hsum
  omega

/-- **C5** — processing any sequence of topics through the balancer with
one shared count vector initialised to zeros leaves every letter's correct
count at most `⌈N/4⌉ + 1`, for every outcome of the tie-breaking and
shuffling draws, where `N` is the total number of questions. -/
theorem balancer_max_count_bound (topics : List StoredTopicMcqs)
    (rss : List (List ItemRands)) :
    ∀ x ∈ (balanceTopics topics [0, 0, 0, 0] rss).2,
      x ≤ (((topics.map (fun t => t.items.length)).sum + 3) / 4 + 1) := by
  have inv0 : CountsInv [0, 0, 0, 0] 0 :=
    { len := rfl, sum := rfl,
      bal := by intro x hx y hy; simp at hx hy; omega }
  have := countsInv_balanceTopics topics [0, 0, 0, 0] rss 0 inv0
  simpa using countsInv_bound _ _ this

end Clarytix

namespace Clarytix

/-- Witness for C5: one topic of one question; the busiest letter's count
is 1, within the bound `⌈1/4⌉ + 1 = 2`. -/
theorem balancer_max_count_bound_witness :
    (1 : Nat) ≤
      ((([⟨"T", [⟨"Remember", "Easy", "Q", ["pq", "r", "s", "t"], 0, "E",
          "recall", none⟩]⟩] : List StoredTopicMcqs).map
            (fun t => t.items.length)).sum + 3) / 4 + 1 :=
  balancer_max_count_bound
    [⟨"T", [⟨"Remember", "Easy", "Q", ["pq", "r", "s", "t"], 0, "E",
      "recall", none⟩]⟩] [[⟨[0, 1], 0⟩]] 1 (by decide)

/-! ## Replacement normalization (route.ts lines 1081–1134) -/

/-- The loosely-typed replacement MCQ offered by the validator: every
field may be absent. -/
structure ReplacementMcq where
  bloom : Option String
  difficulty : Option String
  type_ : Option String
  stem : Option String
  options : Option (List String)
  correct_index : Option Int
  explanation : Option String
  source_spans : Option (List SourceSpan)
  sources : Option (List SourceSpan)
  deriving Repr, DecidableEq

/-- `normalizeReplacementMcq`: copy the replacement's fields over the
fallback's, pad options up to 4 (no truncation in the source), accept the
replacement's correct index only when it is in `[0, 3]`, and take spans
from `source_spans`, then `sources`, then the fallback. -/
def normalizeReplacementMcq (replacement : ReplacementMcq)
    (fallback : StoredMcqItem) : StoredMcqItem :=
  let base :=
    match replacement.options with
    | some opts => opts
    | none => fallback.options
  let options := base ++ List.replicate (4 - base.length) ""
  let correctIndex :=
    match replacement.correct_index with
    | some ci => if 0 ≤ ci ∧ ci ≤ 3 then ci else fallback.correct_index
    | none => fallback.correct_index
  let normalizedSpans :=
    match replacement.source_spans with
    | some spans =>
      if 0 < spans.length then
        some (spans.map (fun s => SourceSpan.mk s.page s.text_snippet))
      else
        match replacement.sources with
        | some srcs =>
          if 0 < srcs.length then
            some (srcs.map (fun s => SourceSpan.mk s.page s.text_snippet))
          else fallback.source_spans
        | none => fallback.source_spans
    | none =>
      match replacement.sources with
      | some srcs =>
        if 0 < srcs.length then
          some (srcs.map (fun s => SourceSpan.mk s.page s.text_snippet))
        else fallback.source_spans
      | none => fallback.source_spans
  { fallback with
      bloom := replacement.bloom.getD fallback.bloom
      difficulty := replacement.difficulty.getD fallback.difficulty
      type_ := replacement.type_.getD fallback.type_
      stem := replacement.stem.getD fallback.stem
      options := options
      correct_index := correctIndex
      explanation := replacement.explanation.getD fallback.explanation
      source_spans := normalizedSpans }

/-! ### Shape of balancer outputs -/

theorem buildNewOptionsGo_length (desired : Nat) (correct : String)
    (fillers : List String) :
    ∀ (idxs : List Nat) (ptr : Nat),
      (buildNewOptionsGo idxs desired correct fillers ptr).length =
        idxs.length := by
  intro idxs
  induction idxs with
  | nil => intro ptr; rfl
  | cons i rest ih =>
    intro ptr
    simp only [buildNewOptionsGo]
    by_cases hid : i = desired
    · rw [if_pos hid]; simp [ih]
    · rw [if_neg hid]; simp [ih]

theorem rebalanceOne_shape (m : StoredMcqItem) (c : List Nat)
    (r : ItemRands) (hlen : c.length = 4) :
    (rebalanceOne m c r).1.options.length = 4 ∧
    0 ≤ (rebalanceOne m c r).1.correct_index ∧
    (rebalanceOne m c r).1.correct_index < 4 := by
  have hne : c ≠ [] := by intro hnil; rw [hnil] at hlen; simp at hlen
  obtain ⟨hlt, _⟩ := selectBalancedIndex_spec c r.pick hne
  rw [hlen] at hlt
  refine ⟨?_, ?_, ?_⟩
  · show (buildNewOptions _ _ _).length = 4
    rw [buildNewOptions, buildNewOptionsGo_length]
    simp
  · show (0 : Int) ≤ (selectBalancedIndex c r.pick : Int)
    exact Int.natCast_nonneg _
  · show (selectBalancedIndex c r.pick : Int) < 4
    exact_mod_cast hlt

theorem rebalanceOne_counts_length (m : StoredMcqItem) (c : List Nat)
    (r : ItemRands) : (rebalanceOne m c r).2.length = c.length := by
  have heq : (rebalanceOne m c r).2 =
      c.set (selectBalancedIndex c r.pick)
        (c.getD (selectBalancedIndex c r.pick) 0 + 1) := rfl
  rw [heq, List.length_set]

theorem rebalance_output_shape (items : List StoredMcqItem) :
    ∀ (c : List Nat) (rands : List ItemRands), c.length = 4 →
      ∀ out ∈ (rebalanceCorrectOptions items c rands).1,
        out.options.length = 4 ∧ 0 ≤ out.correct_index ∧
          out.correct_index < 4 := by
  induction items with
  | nil => intro c rands _ out hout; simp [rebalanceCorrectOptions] at hout
  | cons m ms ih =>
    intro c rands hlen out hout
    simp only [rebalanceCorrectOptions, List.mem_cons] at hout
    rcases hout with rfl | hout
    · exact rebalanceOne_shape m c (rands.headD ⟨[], 0⟩) hlen
    · exact ih _ (rands.tailD [])
        (by rw [rebalanceOne_counts_length]; exact hlen) out hout

/-- **C6 counterexample** — a replacement offering five options is
normalized to an item with five options, not exactly four: padding never
truncates. -/
theorem normalize_options_length_counterexample :
    (normalizeReplacementMcq
      ⟨none, none, none, none, some ["v", "w", "x", "y", "z"], some 1,
        none, none, none⟩
      ⟨"Remember", "Easy", "Q", ["a", "b", "c", "d"], 0, "E", "recall",
        none⟩).options.length ≠ 4 := by
  decide

/-- **C6 (amended)** — every item output by the balancer has exactly 4
options and correct index in `{0,1,2,3}` (with the length-4 count vector
the job uses); a normalized replacement has `max 4 k` options, where `k`
is the length of the option list it copies (so at least 4, but more than
4 when the replacement offers more), and its correct index is either the
replacement's in-range index or the fallback's index unchanged. -/
theorem mcq_shape_after_balancing_and_normalization :
    (∀ (items : List StoredMcqItem) (c : List Nat) (rands : List ItemRands),
      c.length = 4 →
      ∀ out ∈ (rebalanceCorrectOptions items c rands).1,
        out.options.length = 4 ∧ 0 ≤ out.correct_index ∧
          out.correct_index < 4) ∧
    (∀ (r : ReplacementMcq) (fb : StoredMcqItem),
      (normalizeReplacementMcq r fb).options.length =
        max 4 (r.options.getD fb.options).length ∧
      ((0 ≤ (normalizeReplacementMcq r fb).correct_index ∧
          (normalizeReplacementMcq r fb).correct_index ≤ 3) ∨
        (normalizeReplacementMcq r fb).correct_index = fb.correct_index)) := by
  refine ⟨rebalance_output_shape, ?_⟩
  intro r fb
  constructor
  · cases hro : r.options with
    | none =>
      simp only [normalizeReplacementMcq, hro, Option.getD_none,
        List.length_append, List.length_replicate]
      omega
    | some opts =>
      simp only [normalizeReplacementMcq, hro, Option.getD_some,
        List.length_append, List.length_replicate]
      omega
  · cases hro : r.correct_index with
    | none =>
      right
      simp [normalizeReplacementMcq, hro]
    | some ci =>
      by_cases hc : 0 ≤ ci ∧ ci ≤ 3
      · left
        constructor
        · simp only [normalizeReplacementMcq, hro]
          rw [if_pos hc]
          exact hc.1
        · simp only [normalizeReplacementMcq, hro]
          rw [if_pos hc]
          exact hc.2
      · right
        simp only [normalizeReplacementMcq, hro]
        rw [if_neg hc]

/-- Witness for the amended C6 at a concrete balancer run and a concrete
five-option replacement. -/
theorem mcq_shape_witness :
    ((⟨"Remember", "Easy", "Q", ["pq", "t", "s", "r"], 0, "E", "recall",
        none⟩ : StoredMcqItem).options.length = 4 ∧
      (0 : Int) ≤ 0 ∧ (0 : Int) < 4) ∧
    ((normalizeReplacementMcq
        ⟨none, none, none, none, some ["v", "w", "x", "y", "z"], some 1,
          none, none, none⟩
        ⟨"Remember", "Easy", "Q", ["a", "b", "c", "d"], 0, "E", "recall",
          none⟩).options.length =
      max 4 ((some ["v", "w", "x", "y", "z"]).getD
        (["a", "b", "c", "d"])).length ∧
      ((0 ≤ (normalizeReplacementMcq
          ⟨none, none, none, none, some ["v", "w", "x", "y", "z"], some 1,
            none, none, none⟩
          ⟨"Remember", "Easy", "Q", ["a", "b", "c", "d"], 0, "E", "recall",
            none⟩).correct_index ∧
        (normalizeReplacementMcq
          ⟨none, none, none, none, some ["v", "w", "x", "y", "z"], some 1,
            none, none, none⟩
          ⟨"Remember", "Easy", "Q", ["a", "b", "c", "d"], 0, "E", "recall",
            none⟩).correct_index ≤ 3) ∨
        (normalizeReplacementMcq
          ⟨none, none, none, none, some ["v", "w", "x", "y", "z"], some 1,
            none, none, none⟩
          ⟨"Remember", "Easy", "Q", ["a", "b", "c", "d"], 0, "E", "recall",
            none⟩).correct_index = 0)) :=
  ⟨mcq_shape_after_balancing_and_normalization.1
      [⟨"Remember", "Easy", "Q", ["pq", "r", "s", "t"], 0, "E", "recall",
        none⟩] [0, 0, 0, 0] [⟨[0, 1], 0⟩] rfl
      ⟨"Remember", "Easy", "Q", ["pq", "t", "s", "r"], 0, "E", "recall",
        none⟩ (by decide),
    mcq_shape_after_balancing_and_normalization.2
      ⟨none, none, none, none, some ["v", "w", "x", "y", "z"], some 1,
        none, none, none⟩
      ⟨"Remember", "Easy", "Q", ["a", "b", "c", "d"], 0, "E", "recall",
        none⟩⟩

end Clarytix

namespace Clarytix

/-! ## Validator loop (route.ts lines 754–877)

The second model's responses are embedded as a function from the attempt
number to the summary it returns for that attempt; theorems quantify over
it.  A verdict whose `index` is out of range is modelled as leaving the
bucket unchanged (in the source such an index would make the whole run
throw; the claims below never exercise it). -/

/-- One per-question verdict, restricted to the fields the loop reads. -/
structure VerdictR where
  index : Nat
  verdict : String
  replacementMcq : Option ReplacementMcq
  deriving Repr, DecidableEq

/-- One topic's block in a validation summary. -/
structure ValTopicSummary where
  topic : String
  verdicts : List VerdictR
  deriving Repr, DecidableEq

/-- One question of a `TopicValidationPayload` (route.ts lines 787–797). -/
structure PayloadQuestion where
  index : Nat
  stem : String
  options : List String
  correctLetter : String
  explanation : String
  sourceSnippet : Option String
  bloom : String
  difficulty : String
  type_ : String
  deriving Repr, DecidableEq

/-- `TopicValidationPayload`: what one attempt submits for one topic. -/
structure TopicValidationPayload where
  topic : String
  questions : List PayloadQuestion
  deriving Repr, DecidableEq

/-- `cloneMcqItem` (route.ts lines 746–752). -/
def cloneMcqItem (item : StoredMcqItem) : StoredMcqItem :=
  { item with
      options := item.options
      source_spans := item.source_spans.map
        (fun spans => spans.map (fun s => SourceSpan.mk s.page s.text_snippet)) }

/-- The per-run re-clone `generatedTopics.map(topic => ({...items.map(cloneMcqItem)}))`
used at route.ts lines 777–780, 1313–1316, 1384–1387 and 1449–1452. -/
def cloneTopics (topics : List StoredTopicMcqs) : List StoredTopicMcqs :=
  topics.map (fun t => ⟨t.topic, t.items.map cloneMcqItem⟩)

/-- The payload built at the top of each attempt (route.ts lines
785–798). -/
def buildPayload (currentTopics : List StoredTopicMcqs) :
    List TopicValidationPayload :=
  currentTopics.map (fun t =>
    ⟨t.topic,
      t.items.enum.map (fun p =>
        ⟨p.1, p.2.stem, p.2.options, letterAt p.2.correct_index "A",
          p.2.explanation,
          (match p.2.source_spans with
            | none => none
            | some spans => spans.head?.map (fun s => s.text_snippet)),
          p.2.bloom, p.2.difficulty, p.2.type_⟩)⟩)

/-- The `undefined` fallback read when a verdict's index is out of range. -/
def undefinedItem : StoredMcqItem := ⟨"", "", "", [], 0, "", "", none⟩

/-- Inner `forEach` over one topic summary's verdicts (route.ts lines
833–849): a reject without replacement pushes the summary onto the failed
list; a reject with a replacement overwrites the bucket's question in
place and records that a replacement was applied. -/
def applyVerdictsGo (topicIndex : Nat) (ts : ValTopicSummary) :
    List VerdictR → List StoredTopicMcqs → List ValTopicSummary → Bool →
    List StoredTopicMcqs × List ValTopicSummary × Bool
  | [], cur, failedAcc, replaced => (cur, failedAcc, replaced)
  | v :: rest, cur, failedAcc, replaced =>
    if v.verdict = "reject" then
      match v.replacementMcq with
      | none => applyVerdictsGo topicIndex ts rest cur (failedAcc ++ [ts]) replaced
      | some rep =>
        let bucket := cur.getD topicIndex ⟨"", []⟩
        let fallback := bucket.items.getD v.index undefinedItem
        let newBucket :=
          { bucket with
              items := bucket.items.set v.index
                (normalizeReplacementMcq rep fallback) }
        applyVerdictsGo topicIndex ts rest (cur.set topicIndex newBucket)
          failedAcc true
    else
      applyVerdictsGo topicIndex ts rest cur failedAcc replaced

/-- Outer `forEach` over the summary's topics (route.ts lines 832–850). -/
def applyReplacementsGo :
    List ValTopicSummary → Nat → List StoredTopicMcqs →
    List ValTopicSummary → Bool →
    List StoredTopicMcqs × List ValTopicSummary × Bool
  | [], _, cur, failedAcc, replaced => (cur, failedAcc, replaced)
  | ts :: rest, topicIndex, cur, failedAcc, replaced =>
    let st := applyVerdictsGo topicIndex ts ts.verdicts cur failedAcc replaced
    applyReplacementsGo rest (topicIndex + 1) st.1 st.2.1 st.2.2

/-- State left by the validation loop: the working topics, the failed
list, and the payload submitted on each attempt (oldest first). -/
structure LoopState where
  currentTopics : List StoredTopicMcqs
  failedTopicSummaries : List ValTopicSummary
  payloads : List (List TopicValidationPayload)
  deriving Repr, DecidableEq

/-- `const MAX_VALIDATION_ATTEMPTS = 2` (route.ts line 427). -/
def MAX_VALIDATION_ATTEMPTS : Nat := 2

/-- The `for` loop of `validateAndFinalizeJob` (route.ts lines 784–857):
build the payload from ALL current topics, query the validator, and on
rejections either substitute replacements and loop, or stop. -/
def validationLoopGo (responses : Nat → List ValTopicSummary) :
    Nat → Nat → List StoredTopicMcqs → List ValTopicSummary →
    List (List TopicValidationPayload) → LoopState
  | _, 0, cur, failed, payloads => ⟨cur, failed, payloads⟩
  | attempt, rem + 1, cur, failed, payloads =>
    let payload := buildPayload cur
    let summaries := responses attempt
    let rejected := summaries.filter
      (fun ts => ts.verdicts.any (fun v => v.verdict = "reject"))
    if rejected.isEmpty then
      ⟨cur, [], payloads ++ [payload]⟩
    else
      let step := applyReplacementsGo summaries 0 cur [] false
      let failedAll := failed ++ step.2.1
      if step.2.2 then
        validationLoopGo responses (attempt + 1) rem step.1 failedAll
          (payloads ++ [payload])
      else
        ⟨step.1, failedAll ++ rejected, payloads ++ [payload]⟩

/-- The whole loop, starting from a fresh clone of the generated topics
with an empty failed list. -/
def validationLoop (responses : Nat → List ValTopicSummary)
    (generatedTopics : List StoredTopicMcqs) : LoopState :=
  validationLoopGo responses 1 MAX_VALIDATION_ATTEMPTS
    (cloneTopics generatedTopics) [] []

/-- `successfulTopics` (route.ts lines 859–861): topics never recorded as
failed survive into balancing and persistence. -/
def successfulTopics (st : LoopState) : List StoredTopicMcqs :=
  st.currentTopics.filter
    (fun t => !st.failedTopicSummaries.any (fun f => f.topic = t.topic))

end Clarytix

namespace Clarytix

/-! ### C3: what the loop re-submits and what it excludes -/

/-- A generated item used by the concrete validator-loop runs below. -/
def cexItem (s : String) : StoredMcqItem :=
  ⟨"Remember", "Easy", s, ["a", "b", "c", "d"], 0, "E", "recall", none⟩

/-- Two topics, one question each. -/
def cexTopics : List StoredTopicMcqs :=
  [⟨"A", [cexItem "QA"]⟩, ⟨"B", [cexItem "QB"]⟩]

/-- A fully-formed replacement question for topic B. -/
def cexRep : ReplacementMcq :=
  ⟨none, none, none, some "QB2", some ["p", "q", "r", "s"], some 2, none,
    none, none⟩

/-- Validator responses: attempt 1 rejects topic A's question with no
replacement and topic B's question with a replacement; attempt 2 approves
everything. -/
def cexResponses : Nat → List ValTopicSummary := fun attempt =>
  if attempt = 1 then
    [⟨"A", [⟨0, "reject", none⟩]⟩, ⟨"B", [⟨0, "reject", some cexRep⟩]⟩]
  else []

/-- **C3 counterexample** — topic A receives a reject with no replacement
on attempt 1, yet attempt 2's validation request still contains topic A
(the loop never filters `currentTopics`), and the all-approve attempt 2
even clears the failed record entirely. -/
theorem validationLoop_resubmits_failed_topic :
    ((validationLoop cexResponses cexTopics).payloads.map
        (fun p => p.map (fun t => t.topic))) = [["A", "B"], ["A", "B"]] ∧
    (validationLoop cexResponses cexTopics).failedTopicSummaries = [] := by
  decide

theorem map_topic_set (cur : List StoredTopicMcqs) :
    ∀ (i : Nat) (items : List StoredMcqItem),
      ((cur.set i { cur.getD i ⟨"", []⟩ with items := items }).map
          (fun t => t.topic)) = cur.map (fun t => t.topic) := by
  induction cur with
  | nil => intro i items; simp
  | cons a t ih =>
    intro i items
    cases i with
    | zero => simp
    | succ j =>
      simp only [List.set, List.getD_cons_succ, List.map_cons]
      rw [ih j]

theorem applyVerdictsGo_topics (topicIndex : Nat) (ts : ValTopicSummary) :
    ∀ (verdicts : List VerdictR) (cur : List StoredTopicMcqs)
      (failedAcc : List ValTopicSummary) (replaced : Bool),
      ((applyVerdictsGo topicIndex ts verdicts cur failedAcc replaced).1).map
          (fun t => t.topic) = cur.map (fun t => t.topic) := by
  intro verdicts
  induction verdicts with
  | nil => intro cur failedAcc replaced; rfl
  | cons v rest ih =>
    intro cur failedAcc replaced
    simp only [applyVerdictsGo]
    by_cases hv : v.verdict = "reject"
    · rw [if_pos hv]
      cases v.replacementMcq with
      | none => exact ih cur (failedAcc ++ [ts]) replaced
      | some rep =>
        dsimp only
        rw [ih, map_topic_set]
    · rw [if_neg hv]
      exact ih cur failedAcc replaced

theorem applyReplacementsGo_topics :
    ∀ (summaries : List ValTopicSummary) (topicIndex : Nat)
      (cur : List StoredTopicMcqs) (failedAcc : List ValTopicSummary)
      (replaced : Bool),
      ((applyReplacementsGo summaries topicIndex cur failedAcc replaced).1).map
          (fun t => t.topic) = cur.map (fun t => t.topic) := by
  intro summaries
  induction summaries with
  | nil => intro topicIndex cur failedAcc replaced; rfl
  | cons ts rest ih =>
    intro topicIndex cur failedAcc replaced
    simp only [applyReplacementsGo]
    rw [ih, applyVerdictsGo_topics]

theorem buildPayload_topics (cur : List StoredTopicMcqs) :
    (buildPayload cur).map (fun p => p.topic) = cur.map (fun t => t.topic) := by
  simp [buildPayload, List.map_map, Function.comp]

theorem cloneTopics_topics (topics : List StoredTopicMcqs) :
    (cloneTopics topics).map (fun t => t.topic) =
      topics.map (fun t => t.topic) := by
  simp [cloneTopics, List.map_map, Function.comp]

theorem validationLoopGo_payloads (responses : Nat → List ValTopicSummary) :
    ∀ (rem attempt : Nat) (cur : List StoredTopicMcqs)
      (failed : List ValTopicSummary)
      (payloads : List (List TopicValidationPayload)),
      ∀ p ∈ (validationLoopGo responses attempt rem cur failed payloads).payloads,
        p ∈ payloads ∨
          p.map (fun t => t.topic) = cur.map (fun t => t.topic) := by
  intro rem
  induction rem with
  | zero => intro attempt cur failed payloads p hp; exact Or.inl hp
  | succ rem ih =>
    intro attempt cur failed payloads p hp
    simp only [validationLoopGo] at hp
    by_cases hrej : ((responses attempt).filter
        (fun ts => ts.verdicts.any (fun v => v.verdict = "reject"))).isEmpty
    · rw [if_pos hrej] at hp
      simp only [List.mem_append, List.mem_singleton] at hp
      rcases hp with hp | rfl
      · exact Or.inl hp
      · exact Or.inr (buildPayload_topics cur)
    · rw [if_neg hrej] at hp
      by_cases hrepl : (applyReplacementsGo (responses attempt) 0 cur [] false).2.2
      · rw [if_pos hrepl] at hp
        rcases ih (attempt + 1) _ _ _ p hp with hmem | hnames
        · simp only [List.mem_append, List.mem_singleton] at hmem
          rcases hmem with hmem | rfl
          · exact Or.inl hmem
          · exact Or.inr (buildPayload_topics cur)
        · exact Or.inr (by rw [hnames, applyReplacementsGo_topics])
      · rw [if_neg hrepl] at hp
        simp only [List.mem_append, List.mem_singleton] at hp
        rcases hp with hp | rfl
        · exact Or.inl hp
        · exact Or.inr (buildPayload_topics cur)

/-- **C3 (amended)** — a topic rejected without replacement (or all
rejected topics when an attempt applies no replacement) is recorded in the
failed list, and any topic still recorded there when the loop ends is
excluded from the final output; but every attempt's validation request
still lists ALL topics, including failed ones — re-submission is never
restricted to replaced-and-pending topics (and a later all-approve attempt
clears the failed record). -/
theorem validationLoop_requests_and_exclusion
    (responses : Nat → List ValTopicSummary)
    (generatedTopics : List StoredTopicMcqs) :
    (∀ p ∈ (validationLoop responses generatedTopics).payloads,
      p.map (fun t => t.topic) = generatedTopics.map (fun t => t.topic)) ∧
    (∀ t ∈ successfulTopics (validationLoop responses generatedTopics),
      ∀ f ∈ (validationLoop responses generatedTopics).failedTopicSummaries,
        f.topic ≠ t.topic) := by
  constructor
  · intro p hp
    rcases validationLoopGo_payloads responses MAX_VALIDATION_ATTEMPTS 1
        (cloneTopics generatedTopics) [] [] p hp with hmem | hnames
    · simp at hmem
    · rw [hnames, cloneTopics_topics]
  · intro t ht f hf
    simp only [successfulTopics, List.mem_filter, Bool.not_eq_true',
      List.any_eq_false, decide_eq_true_eq] at ht
    have := ht.2 f hf
    simp only [decide_eq_false_iff_not] at this
    exact this

/-- Witness for the amended C3: in the concrete run above, the first
attempt's request lists both topics. -/
theorem validationLoop_requests_witness :
    (((validationLoop cexResponses cexTopics).payloads.getD 0 []).map
        (fun t => t.topic)) = cexTopics.map (fun t => t.topic) :=
  (validationLoop_requests_and_exclusion cexResponses cexTopics).1 _ (by decide)

end Clarytix

namespace Clarytix

/-! ## Job status state machine (route.ts lines 1227–1232, 1350–1504;
jobStore.ts; retry-persist/route.ts and the validation-retry route)

The orchestrator's status writes are collected into a labelled transition
relation over the pair (status, whether `generatedTopics` is a nonempty
array).  One constructor per write site. -/

/-- `JobStatus` from jobStore.ts. -/
inductive JobStatus where
  | pending
  | processing
  | succeeded
  | failed
  deriving Repr, DecidableEq

/-- The status-relevant part of a job record. -/
structure JobMachineState where
  status : JobStatus
  snapshotPresent : Bool
  deriving Repr, DecidableEq

/-- The events that write `record.status`. -/
inductive JobEvent where
  | startProcessing
  | generationComplete
  | completeSuccess
  | completeFailure
  | retryValidationCall
  | retryPersistenceCall
  deriving Repr, DecidableEq

/-- Status transitions, one constructor per write site:
`processJob` entry clears the snapshot and enters `processing`
(route.ts 1228, 1262); snapshot capture after generation (1304);
`validateAndFinalizeJob` terminal writes (864, 905, 930) and the `catch`
blocks (1328, 1399, 1463); the two retry entry points set `processing`
(1351, 1416) and are reachable for ANY status once their route guard — a
nonempty `generatedTopics` — passes (retry-persist/route.ts 30–32 and the
validation-retry route). -/
inductive JobStep : JobEvent → JobMachineState → JobMachineState → Prop where
  | startProcessing (snap : Bool) :
      JobStep JobEvent.startProcessing
        ⟨JobStatus.pending, snap⟩ ⟨JobStatus.processing, false⟩
  | generationComplete (snap : Bool) :
      JobStep JobEvent.generationComplete
        ⟨JobStatus.processing, snap⟩ ⟨JobStatus.processing, true⟩
  | completeSuccess (snap : Bool) :
      JobStep JobEvent.completeSuccess
        ⟨JobStatus.processing, snap⟩ ⟨JobStatus.succeeded, snap⟩
  | completeFailure (snap : Bool) :
      JobStep JobEvent.completeFailure
        ⟨JobStatus.processing, snap⟩ ⟨JobStatus.failed, snap⟩
  | retryValidationCall (st : JobMachineState)
      (h : st.snapshotPresent = true) :
      JobStep JobEvent.retryValidationCall st
        ⟨JobStatus.processing, st.snapshotPresent⟩
  | retryPersistenceCall (st : JobMachineState)
      (h : st.snapshotPresent = true) :
      JobStep JobEvent.retryPersistenceCall st
        ⟨JobStatus.processing, st.snapshotPresent⟩

/-- States reachable from a freshly created job (`createJob`,
route.ts 1484–1497: status `pending`, no snapshot). -/
inductive JobReachable : JobMachineState → Prop where
  | created : JobReachable ⟨JobStatus.pending, false⟩
  | step {s s' : JobMachineState} {e : JobEvent} :
      JobReachable s → JobStep e s s' → JobReachable s'

/-- **C1 counterexample** — a job that SUCCEEDED (with its snapshot still
stored, as every successful run leaves it) is reachable, and the
persistence-retry endpoint moves it back to `processing`: a retry call
re-enters `processing` from `succeeded`, not only from `failed`. -/
theorem retry_reenters_processing_from_succeeded :
    JobReachable ⟨JobStatus.succeeded, true⟩ ∧
    JobStep JobEvent.retryPersistenceCall
      ⟨JobStatus.succeeded, true⟩ ⟨JobStatus.processing, true⟩ ∧
    JobStatus.succeeded ≠ JobStatus.failed := by
  refine ⟨?_, ?_, by decide⟩
  · exact JobReachable.step
      (JobReachable.step
        (JobReachable.step JobReachable.created (JobStep.startProcessing false))
        (JobStep.generationComplete false))
      (JobStep.completeSuccess true)
  · exact JobStep.retryPersistenceCall ⟨JobStatus.succeeded, true⟩ rfl

/-- **C1 (amended)** — within one run the status moves only along
`pending → processing → {succeeded, failed}`; a terminal job re-enters
`processing` only through an explicit validation- or persistence-retry
call, and such a call requires only a nonempty generated-content snapshot
(so it can fire from `succeeded` as well as from `failed`). -/
theorem job_status_transitions (e : JobEvent) (s s' : JobMachineState)
    (h : JobStep e s s') :
    (s.status = JobStatus.pending → s'.status = JobStatus.processing) ∧
    (s.status = JobStatus.processing →
      (s'.status = JobStatus.processing ∨ s'.status = JobStatus.succeeded ∨
        s'.status = JobStatus.failed)) ∧
    ((s.status = JobStatus.succeeded ∨ s.status = JobStatus.failed) →
      ((e = JobEvent.retryValidationCall ∨ e = JobEvent.retryPersistenceCall) ∧
        s'.status = JobStatus.processing ∧ s.snapshotPresent = true)) := by
  cases h <;> simp_all

/-- Witness for the amended C1 at the retry-from-failed step. -/
theorem job_status_transitions_witness :
    (JobEvent.retryValidationCall = JobEvent.retryValidationCall ∨
      JobEvent.retryValidationCall = JobEvent.retryPersistenceCall) ∧
    (⟨JobStatus.processing, true⟩ : JobMachineState).status =
      JobStatus.processing ∧
    (⟨JobStatus.failed, true⟩ : JobMachineState).snapshotPresent = true :=
  (job_status_transitions JobEvent.retryValidationCall
    ⟨JobStatus.failed, true⟩ ⟨JobStatus.processing, true⟩
    (JobStep.retryValidationCall ⟨JobStatus.failed, true⟩ rfl)).2.2
    (Or.inr rfl)

end Clarytix

namespace Clarytix

/-! ## Relational store and the persistence writer
(route.ts lines 950–1079)

The three tables are lists of rows plus id counters for the serial
primary keys the inserts return.  SQL statements become pure functions on
this state, translated query by query. -/

structure ChapterRow where
  id : Nat
  subject_id : Int
  classLabel : String
  chapter_name : String
  syllabus : Option String
  deriving Repr, DecidableEq

structure TopicRow where
  id : Nat
  subject_id : Int
  name : String
  classLabel : String
  chapter_id : Nat
  deriving Repr, DecidableEq

structure QuestionRow where
  topic_id : Nat
  classLabel : String
  question_text : String
  option_a : String
  option_b : String
  option_c : String
  option_d : String
  correct_answer : String
  explanation : String
  image_url : Option String
  deriving Repr, DecidableEq

structure Db where
  chapters : List ChapterRow
  topics : List TopicRow
  questions : List QuestionRow
  nextChapterId : Nat
  nextTopicId : Nat
  deriving Repr, DecidableEq

/-- One element of the `topics` argument of `persistChapterToDatabase`:
`{ name, items }`. -/
structure PersistTopic where
  name : String
  items : List StoredMcqItem
  deriving Repr, DecidableEq

/-- The arguments of `persistChapterToDatabase` (route.ts lines 950–958). -/
structure PersistArgs where
  classLevel : Int
  subjectId : Int
  chapterNumber : Int
  chapterTitle : String
  syllabusName : String
  topics : List PersistTopic
  deriving Repr, DecidableEq

/-- `` `Class ${classLevel}` `` (route.ts line 962). -/
def classLabelOf (classLevel : Int) : String := "Class " ++ toString classLevel

/-- `SELECT id, syllabus FROM chapters WHERE subject_id=$1 AND class=$2
AND chapter_name=$3` (first matching row). -/
def findChapter (db : Db) (sid : Int) (cls name : String) :
    Option ChapterRow :=
  db.chapters.find? (fun c =>
    c.subject_id = sid ∧ c.classLabel = cls ∧ c.chapter_name = name)

/-- `UPDATE chapters SET chapter_name=$1 WHERE id=$2`. -/
def updateChapterName (db : Db) (cid : Nat) (newName : String) : Db :=
  { db with chapters := (db.chapters.map
      (fun c => if c.id = cid then { c with chapter_name := newName } else c)) }

/-- `UPDATE chapters SET syllabus=$1 WHERE id=$2`. -/
def updateChapterSyllabus (db : Db) (cid : Nat) (syl : String) : Db :=
  { db with chapters := (db.chapters.map
      (fun c => if c.id = cid then { c with syllabus := some syl } else c)) }

/-- `INSERT INTO chapters … RETURNING id`. -/
def insertChapter (db : Db) (sid : Int) (cls name syl : String) : Nat × Db :=
  (db.nextChapterId,
    { db with
        chapters := db.chapters ++
          [⟨db.nextChapterId, sid, cls, name, some syl⟩]
        nextChapterId := db.nextChapterId + 1 })

/-- Chapter resolution (route.ts lines 970–1014): direct lookup, then the
legacy `Chapter N: Title` lookup with in-place migration, then the
syllabus refresh, else a fresh insert. -/
def resolveChapter (a : PersistArgs) (db : Db) : Nat × Db :=
  let cls := classLabelOf a.classLevel
  let title := a.chapterTitle.trim
  let legacy := ("Chapter " ++ toString a.chapterNumber ++ ": " ++ title).trim
  let syl := a.syllabusName.trim
  match findChapter db a.subjectId cls title with
  | some row =>
    (row.id,
      if (row.syllabus.getD "").trim ≠ syl then
        updateChapterSyllabus db row.id syl
      else db)
  | none =>
    match findChapter db a.subjectId cls legacy with
    | some row =>
      let db := updateChapterName db row.id title
      (row.id,
        if (row.syllabus.getD "").trim ≠ syl then
          updateChapterSyllabus db row.id syl
        else db)
    | none => insertChapter db a.subjectId cls title syl

/-- `INSERT INTO topics … ON CONFLICT (subject_id, name, class) DO UPDATE
SET chapter_id = EXCLUDED.chapter_id RETURNING id` (route.ts
lines 1017–1024). -/
def findTopic (db : Db) (sid : Int) (name cls : String) : Option TopicRow :=
  db.topics.find? (fun t =>
    t.subject_id = sid ∧ t.name = name ∧ t.classLabel = cls)

def upsertTopic (db : Db) (sid : Int) (name cls : String) (chId : Nat) :
    Nat × Db :=
  match findTopic db sid name cls with
  | some row =>
    (row.id,
      { db with topics := (db.topics.map
          (fun t => if t.id = row.id then { t with chapter_id := chId } else t)) })
  | none =>
    (db.nextTopicId,
      { db with
          topics := db.topics ++ [⟨db.nextTopicId, sid, name, cls, chId⟩]
          nextTopicId := db.nextTopicId + 1 })

/-- `DELETE FROM questions WHERE topic_id=$1 AND class=$2` (route.ts
lines 1029–1032). -/
def deleteQuestions (db : Db) (tid : Nat) (cls : String) : Db :=
  { db with questions := (db.questions.filter
      (fun q => !(decide (q.topic_id = tid ∧ q.classLabel = cls)))) }

/-- One row of the questions `INSERT` (route.ts lines 1034–1067). -/
def toQuestionRow (tid : Nat) (cls : String) (item : StoredMcqItem) :
    QuestionRow :=
  let optionsPadded := item.options ++ List.replicate (4 - item.options.length) ""
  { topic_id := tid
    classLabel := cls
    question_text := item.stem
    option_a := optionsPadded.getD 0 ""
    option_b := optionsPadded.getD 1 ""
    option_c := optionsPadded.getD 2 ""
    option_d := optionsPadded.getD 3 ""
    correct_answer := letterAt item.correct_index "A"
    explanation := item.explanation
    image_url := none }

def insertQuestions (db : Db) (tid : Nat) (cls : String)
    (items : List StoredMcqItem) : Db :=
  { db with questions := db.questions ++ items.map (toQuestionRow tid cls) }

/-- The per-topic body of the `for (const topic of topics)` loop
(route.ts lines 1016–1069): upsert, delete all question rows for the
topic/class pair, insert the new set. -/
def persistTopicStep (sid : Int) (cls : String) (chId : Nat)
    (t : PersistTopic) (db : Db) : Db :=
  let up := upsertTopic db sid t.name cls chId
  insertQuestions (deleteQuestions up.2 up.1 cls) up.1 cls t.items

def persistTopicsLoop (sid : Int) (cls : String) (chId : Nat) :
    List PersistTopic → Db → Db
  | [], db => db
  | t :: ts, db =>
    persistTopicsLoop sid cls chId ts (persistTopicStep sid cls chId t db)

/-- `persistChapterToDatabase` on its success path (the transactional
failure path is modelled separately below). -/
def persistChapterToDatabase (a : PersistArgs) (db : Db) : Db :=
  let r := resolveChapter a db
  persistTopicsLoop a.subjectId (classLabelOf a.classLevel) r.1 a.topics r.2

/-- The question rows currently stored for a topic id and class. -/
def questionRowsFor (db : Db) (tid : Nat) (cls : String) :
    List QuestionRow :=
  db.questions.filter (fun q => q.topic_id = tid ∧ q.classLabel = cls)

/-- Well-formedness of the store: topic ids are unique and below the
serial counter. -/
def WFdb (db : Db) : Prop :=
  (db.topics.map (fun t => t.id)).Nodup ∧
  ∀ t ∈ db.topics, t.id < db.nextTopicId

end Clarytix


namespace Clarytix

/-! ### Frame and preservation lemmas for the persistence writer -/

theorem resolveChapter_frame (a : PersistArgs) (db : Db) :
    (resolveChapter a db).2.topics = db.topics ∧
    (resolveChapter a db).2.questions = db.questions ∧
    (resolveChapter a db).2.nextTopicId = db.nextTopicId := by
  unfold resolveChapter
  dsimp only
  split
  · split <;> simp [updateChapterSyllabus]
  · split
    · split <;> simp [updateChapterName, updateChapterSyllabus]
    · simp [insertChapter]

theorem upsertTopic_questions (db : Db) (sid : Int) (name cls : String)
    (ch : Nat) : (upsertTopic db sid name cls ch).2.questions = db.questions := by
  unfold upsertTopic
  split <;> rfl

theorem deleteQuestions_topics (db : Db) (tid : Nat) (cls : String) :
    (deleteQuestions db tid cls).topics = db.topics := rfl

theorem insertQuestions_topics (db : Db) (tid : Nat) (cls : String)
    (items : List StoredMcqItem) :
    (insertQuestions db tid cls items).topics = db.topics := rfl

theorem persistTopicStep_topics (sid : Int) (cls : String) (ch : Nat)
    (t : PersistTopic) (db : Db) :
    (persistTopicStep sid cls ch t db).topics =
      (upsertTopic db sid t.name cls ch).2.topics := rfl

theorem find?_map_pres {α : Type} (g : α → α) (p : α → Bool)
    (hp : ∀ x, p (g x) = p x) :
    ∀ l : List α, (l.map g).find? p = (l.find? p).map g := by
  intro l
  induction l with
  | nil => rfl
  | cons a t ih =>
    simp only [List.map_cons]
    cases hpa : p a
    · rw [List.find?_cons_of_neg _ (by simp [hp a, hpa]),
        List.find?_cons_of_neg _ (by simp [hpa]), ih]
    · rw [List.find?_cons_of_pos _ (by simp [hp a, hpa]),
        List.find?_cons_of_pos _ (by simp [hpa])]
      rfl

/-- The `ON CONFLICT` update only touches `chapter_id`, so the
(subject, name, class) search key of every row is preserved. -/
theorem topicKey_update_pres (uid : Nat) (ch : Nat) (sid : Int)
    (name cls : String) :
    ∀ x : TopicRow,
      (fun t : TopicRow =>
        decide (t.subject_id = sid ∧ t.name = name ∧ t.classLabel = cls))
        ((fun t => if t.id = uid then { t with chapter_id := ch } else t) x) =
      (fun t : TopicRow =>
        decide (t.subject_id = sid ∧ t.name = name ∧ t.classLabel = cls)) x := by
  intro x
  by_cases h : x.id = uid <;> simp [h]

theorem findTopic_upsert_self (db : Db) (sid : Int) (name cls : String)
    (ch : Nat) :
    (findTopic (upsertTopic db sid name cls ch).2 sid name cls).map
        (fun t => t.id) = some (upsertTopic db sid name cls ch).1 := by
  cases hfind : findTopic db sid name cls with
  | some row =>
    unfold upsertTopic
    rw [hfind]
    dsimp only
    unfold findTopic at hfind ⊢
    dsimp only
    rw [find?_map_pres _ _ (topicKey_update_pres row.id ch sid name cls), hfind]
    simp
  | none =>
    unfold upsertTopic
    rw [hfind]
    dsimp only
    unfold findTopic at hfind ⊢
    dsimp only
    rw [List.find?_append, hfind]
    simp

theorem findTopic_upsert_other (db : Db) (sid : Int) (name cls : String)
    (ch : Nat) (name' : String) (hne : name' ≠ name) :
    (findTopic (upsertTopic db sid name cls ch).2 sid name' cls).map
        (fun t => t.id) =
      (findTopic db sid name' cls).map (fun t => t.id) := by
  cases hfind : findTopic db sid name cls with
  | some row =>
    unfold upsertTopic
    rw [hfind]
    dsimp only
    unfold findTopic
    dsimp only
    rw [find?_map_pres _ _ (topicKey_update_pres row.id ch sid name' cls)]
    cases hq : db.topics.find? (fun t =>
        decide (t.subject_id = sid ∧ t.name = name' ∧ t.classLabel = cls)) with
    | none => simp
    | some r =>
      simp only [Option.map_some']
      by_cases h : r.id = row.id <;> simp [h]
  | none =>
    unfold upsertTopic
    rw [hfind]
    dsimp only
    unfold findTopic
    dsimp only
    rw [List.find?_append]
    have hne' : name ≠ name' := fun h => hne h.symm
    have hnew : (List.find? (fun t : TopicRow =>
        decide (t.subject_id = sid ∧ t.name = name' ∧ t.classLabel = cls))
        [⟨db.nextTopicId, sid, name, cls, ch⟩]) = none := by
      simp [hne']
    rw [hnew]
    simp

theorem WF_upsertTopic (db : Db) (sid : Int) (name cls : String) (ch : Nat)
    (h : WFdb db) : WFdb (upsertTopic db sid name cls ch).2 := by
  obtain ⟨hnodup, hbound⟩ := h
  unfold upsertTopic
  cases hfind : findTopic db sid name cls with
  | some row =>
    dsimp only
    constructor
    · have heq : (db.topics.map
          (fun t => if t.id = row.id then { t with chapter_id := ch } else t)).map
            (fun t => t.id) = db.topics.map (fun t => t.id) := by
        rw [List.map_map]
        apply List.map_congr_left
        intro x _
        by_cases hx : x.id = row.id <;> simp [hx]
      rw [heq]
      exact hnodup
    · intro t ht
      simp only [List.mem_map] at ht
      obtain ⟨x, hx, rfl⟩ := ht
      have hid : (if x.id = row.id then { x with chapter_id := ch } else x).id =
          x.id := by
        by_cases hxx : x.id = row.id
        · rw [if_pos hxx]
        · rw [if_neg hxx]
      rw [hid]
      exact hbound x hx
  | none =>
    dsimp only
    constructor
    · rw [List.map_append, List.nodup_append]
      refine ⟨hnodup, List.nodup_singleton _, ?_⟩
      intro x hx
      simp only [List.mem_map] at hx
      obtain ⟨y, hy, rfl⟩ := hx
      have := hbound y hy
      simp
      omega
    · intro t ht
      rcases List.mem_append.mp ht with ht | ht
      · have := hbound t ht
        show t.id < db.nextTopicId + 1
        omega
      · simp at ht
        rw [ht]
        show db.nextTopicId < db.nextTopicId + 1
        omega

theorem WF_persistTopicStep (sid : Int) (cls : String) (ch : Nat)
    (t : PersistTopic) (db : Db) (h : WFdb db) :
    WFdb (persistTopicStep sid cls ch t db) :=
  WF_upsertTopic db sid t.name cls ch h

theorem WF_persistTopicsLoop (sid : Int) (cls : String) (ch : Nat) :
    ∀ (ts : List PersistTopic) (db : Db), WFdb db →
      WFdb (persistTopicsLoop sid cls ch ts db) := by
  intro ts
  induction ts with
  | nil => intro db h; exact h
  | cons t rest ih =>
    intro db h
    exact ih _ (WF_persistTopicStep sid cls ch t db h)

theorem WF_resolveChapter (a : PersistArgs) (db : Db) (h : WFdb db) :
    WFdb (resolveChapter a db).2 := by
  have hf := resolveChapter_frame a db
  unfold WFdb
  rw [hf.1, hf.2.2]
  exact h

theorem WF_persistChapterToDatabase (a : PersistArgs) (db : Db)
    (h : WFdb db) : WFdb (persistChapterToDatabase a db) :=
  WF_persistTopicsLoop _ _ _ _ _ (WF_resolveChapter a db h)

end Clarytix

namespace Clarytix

/-! ### Effect of one topic's delete-then-insert on the question rows -/

theorem questionRowsFor_delete_self (db : Db) (tid : Nat) (cls : String) :
    questionRowsFor (deleteQuestions db tid cls) tid cls = [] := by
  unfold questionRowsFor deleteQuestions
  dsimp only
  rw [List.filter_filter]
  apply List.filter_eq_nil_iff.mpr
  intro a _
  by_cases h : a.topic_id = tid ∧ a.classLabel = cls <;> simp [h]

theorem questionRowsFor_delete_other (db : Db) (tid tid' : Nat)
    (cls : String) (hne : tid ≠ tid') :
    questionRowsFor (deleteQuestions db tid' cls) tid cls =
      questionRowsFor db tid cls := by
  unfold questionRowsFor deleteQuestions
  dsimp only
  rw [List.filter_filter]
  apply List.filter_congr
  intro a _
  by_cases h : a.topic_id = tid ∧ a.classLabel = cls
  · have : ¬(a.topic_id = tid' ∧ a.classLabel = cls) := by
      intro hc
      exact hne (h.1.symm.trans hc.1)
    simp [h, this, hne]
  · simp [h]

theorem questionRowsFor_insert_self (db : Db) (tid : Nat) (cls : String)
    (items : List StoredMcqItem) :
    questionRowsFor (insertQuestions db tid cls items) tid cls =
      questionRowsFor db tid cls ++ items.map (toQuestionRow tid cls) := by
  unfold questionRowsFor insertQuestions
  dsimp only
  rw [List.filter_append]
  congr 1
  apply List.filter_eq_self.mpr
  intro a ha
  simp only [List.mem_map] at ha
  obtain ⟨it, _, rfl⟩ := ha
  simp [toQuestionRow]

theorem questionRowsFor_insert_other (db : Db) (tid tid' : Nat)
    (cls : String) (items : List StoredMcqItem) (hne : tid ≠ tid') :
    questionRowsFor (insertQuestions db tid' cls items) tid cls =
      questionRowsFor db tid cls := by
  unfold questionRowsFor insertQuestions
  dsimp only
  rw [List.filter_append]
  have hnil : (items.map (toQuestionRow tid' cls)).filter
      (fun q => decide (q.topic_id = tid ∧ q.classLabel = cls)) = [] := by
    apply List.filter_eq_nil_iff.mpr
    intro a ha
    simp only [List.mem_map] at ha
    obtain ⟨it, _, rfl⟩ := ha
    simp [toQuestionRow]
    intro hc
    exact absurd hc.symm hne
  rw [hnil, List.append_nil]

theorem questionRowsFor_upsert (db : Db) (sid : Int) (name cls : String)
    (ch : Nat) (tid : Nat) (cls' : String) :
    questionRowsFor (upsertTopic db sid name cls ch).2 tid cls' =
      questionRowsFor db tid cls' := by
  unfold questionRowsFor
  rw [upsertTopic_questions]

theorem persistTopicStep_self (sid : Int) (cls : String) (ch : Nat)
    (t : PersistTopic) (db : Db) :
    (findTopic (persistTopicStep sid cls ch t db) sid t.name cls).map
        (fun r => r.id) = some (upsertTopic db sid t.name cls ch).1 ∧
    questionRowsFor (persistTopicStep sid cls ch t db)
        (upsertTopic db sid t.name cls ch).1 cls =
      t.items.map (toQuestionRow (upsertTopic db sid t.name cls ch).1 cls) := by
  constructor
  · have heq : findTopic (persistTopicStep sid cls ch t db) sid t.name cls =
        findTopic (upsertTopic db sid t.name cls ch).2 sid t.name cls := by
      unfold findTopic
      rw [persistTopicStep_topics]
    rw [heq, findTopic_upsert_self]
  · unfold persistTopicStep
    dsimp only
    rw [questionRowsFor_insert_self, questionRowsFor_delete_self]
    rfl

theorem findTopic_step_mapid (sid : Int) (cls : String) (ch : Nat)
    (t0 : PersistTopic) (db : Db) (name' : String) (r0 : TopicRow)
    (h : findTopic db sid name' cls = some r0) :
    (findTopic (persistTopicStep sid cls ch t0 db) sid name' cls).map
        (fun r => r.id) = some r0.id := by
  have heq : findTopic (persistTopicStep sid cls ch t0 db) sid name' cls =
      findTopic (upsertTopic db sid t0.name cls ch).2 sid name' cls := by
    unfold findTopic
    rw [persistTopicStep_topics]
  rw [heq]
  unfold upsertTopic
  cases hfind : findTopic db sid t0.name cls with
  | some row =>
    dsimp only
    unfold findTopic at h ⊢
    dsimp only
    rw [find?_map_pres _ _ (topicKey_update_pres row.id ch sid name' cls), h]
    simp only [Option.map_some']
    by_cases hh : r0.id = row.id <;> simp [hh]
  | none =>
    dsimp only
    unfold findTopic at h ⊢
    dsimp only
    rw [List.find?_append, h]
    simp

end Clarytix

namespace Clarytix

theorem findTopic_mem (db : Db) (sid : Int) (name cls : String)
    (r : TopicRow) (h : findTopic db sid name cls = some r) :
    r ∈ db.topics ∧ r.subject_id = sid ∧ r.name = name ∧ r.classLabel = cls := by
  unfold findTopic at h
  have hmem := List.mem_of_find?_eq_some h
  have hp := List.find?_some h
  simp only [decide_eq_true_eq] at hp
  exact ⟨hmem, hp⟩

/-- The id the upsert resolves for a DIFFERENT topic name is never the id
already resolved for `name'`. -/
theorem upsertTopic_id_ne (db : Db) (sid : Int) (name cls : String)
    (ch : Nat) (r0 : TopicRow) (hWF : WFdb db)
    (h0 : findTopic db sid name cls = some r0) (name' : String)
    (hne : name' ≠ name) :
    (upsertTopic db sid name' cls ch).1 ≠ r0.id := by
  obtain ⟨hmem0, _, hname0, _⟩ := findTopic_mem db sid name cls r0 h0
  unfold upsertTopic
  cases hfind : findTopic db sid name' cls with
  | some row =>
    dsimp only
    obtain ⟨hmem, _, hname, _⟩ := findTopic_mem db sid name' cls row hfind
    intro hid
    have := List.inj_on_of_nodup_map hWF.1 hmem hmem0 hid
    rw [this] at hname
    exact hne (hname.symm.trans hname0)
  | none =>
    dsimp only
    have := hWF.2 r0 hmem0
    omega

theorem persistTopicStep_rows_other (sid : Int) (cls : String) (ch : Nat)
    (t0 : PersistTopic) (db : Db) (name' : String) (r0 : TopicRow)
    (hWF : WFdb db) (h0 : findTopic db sid name' cls = some r0)
    (hne : name' ≠ t0.name) :
    questionRowsFor (persistTopicStep sid cls ch t0 db) r0.id cls =
      questionRowsFor db r0.id cls := by
  have hid := upsertTopic_id_ne db sid name' cls ch r0 hWF h0 t0.name
    (fun h => hne h.symm)
  unfold persistTopicStep
  dsimp only
  rw [questionRowsFor_insert_other _ _ _ _ _ (fun h => hid h.symm),
    questionRowsFor_delete_other _ _ _ _ (fun h => hid h.symm),
    questionRowsFor_upsert]

theorem persistTopicsLoop_preserves (sid : Int) (cls : String) (ch : Nat) :
    ∀ (ts : List PersistTopic) (db : Db) (name' : String) (r0 : TopicRow),
      WFdb db → (∀ t' ∈ ts, t'.name ≠ name') →
      findTopic db sid name' cls = some r0 →
      (findTopic (persistTopicsLoop sid cls ch ts db) sid name' cls).map
          (fun r => r.id) = some r0.id ∧
      questionRowsFor (persistTopicsLoop sid cls ch ts db) r0.id cls =
        questionRowsFor db r0.id cls := by
  intro ts
  induction ts with
  | nil =>
    intro db name' r0 _ _ h
    constructor
    · show (findTopic db sid name' cls).map (fun r => r.id) = some r0.id
      rw [h]
      rfl
    · rfl
  | cons t' rest ih =>
    intro db name' r0 hWF hnames h
    have hWF1 := WF_persistTopicStep sid cls ch t' db hWF
    have hmap := findTopic_step_mapid sid cls ch t' db name' r0 h
    obtain ⟨r1, hr1, hr1id⟩ := Option.map_eq_some'.mp hmap
    have hrows1 := persistTopicStep_rows_other sid cls ch t' db name' r0 hWF h
      (fun hh => hnames t' (List.mem_cons_self t' rest) hh.symm)
    obtain ⟨ih1, ih2⟩ := ih (persistTopicStep sid cls ch t' db) name' r1 hWF1
      (fun x hx => hnames x (List.mem_cons_of_mem t' hx)) hr1
    constructor
    · show (findTopic (persistTopicsLoop sid cls ch rest
          (persistTopicStep sid cls ch t' db)) sid name' cls).map
            (fun r => r.id) = some r0.id
      rw [ih1, hr1id]
    · show questionRowsFor (persistTopicsLoop sid cls ch rest
          (persistTopicStep sid cls ch t' db)) r0.id cls =
            questionRowsFor db r0.id cls
      rw [← hr1id, ih2, hr1id, hrows1]

theorem upsertTopic_id_stable (db : Db) (sid : Int) (name cls : String)
    (ch : Nat) (r0 : TopicRow) (h : findTopic db sid name cls = some r0) :
    (upsertTopic db sid name cls ch).1 = r0.id := by
  unfold upsertTopic
  rw [h]

end Clarytix

namespace Clarytix

/-- The last batch entry carrying a given topic name: with duplicate
names, its delete-then-insert is the one that survives. -/
def lastWithName (name : String) (batch : List PersistTopic) :
    Option PersistTopic :=
  (batch.filter (fun t => t.name = name)).getLast?

theorem getLast?_cons_of_ne_nil {α : Type} (a : α) (l : List α)
    (h : l ≠ []) : (a :: l).getLast? = l.getLast? := by
  cases l with
  | nil => exact absurd rfl h
  | cons b t => exact List.getLast?_cons_cons

theorem getLast?_exists {α : Type} (l : List α) (h : l ≠ []) :
    ∃ x, l.getLast? = some x := by
  cases hl : l.getLast? with
  | some x => exact ⟨x, rfl⟩
  | none => rw [List.getLast?_eq_none_iff] at hl; exact absurd hl h

theorem lastWithName_cons_of_mem (tname : String) (t0 : PersistTopic)
    (rest : List PersistTopic) (t' : PersistTopic) (ht' : t' ∈ rest)
    (hname : t'.name = tname) :
    lastWithName tname (t0 :: rest) = lastWithName tname rest := by
  unfold lastWithName
  rw [List.filter_cons]
  have hmem : t' ∈ rest.filter (fun t => t.name = tname) :=
    List.mem_filter.mpr ⟨ht', by simp [hname]⟩
  have hnil : rest.filter (fun t => t.name = tname) ≠ [] := by
    intro hn
    rw [hn] at hmem
    simp at hmem
  split
  · exact getLast?_cons_of_ne_nil _ _ hnil
  · rfl

theorem lastWithName_self (t : PersistTopic) (rest : List PersistTopic)
    (hnot : ∀ t' ∈ rest, t'.name ≠ t.name) :
    lastWithName t.name (t :: rest) = some t := by
  unfold lastWithName
  rw [List.filter_cons]
  have hnil : rest.filter (fun x => x.name = t.name) = [] := by
    apply List.filter_eq_nil_iff.mpr
    intro x hx
    simp [hnot x hx]
  rw [hnil]
  simp

/-- Per-topic result of the upsert/delete/insert loop: each batch topic
resolves to a stable id whose question rows afterwards are exactly the
rows of the last batch entry with that name; and when the topic row
already existed, the resolved id is the pre-existing one. -/
theorem persistTopicsLoop_spec (sid : Int) (cls : String) (ch : Nat) :
    ∀ (batch : List PersistTopic) (db : Db), WFdb db →
      ∀ t ∈ batch, ∃ tid,
        (findTopic (persistTopicsLoop sid cls ch batch db) sid t.name cls).map
            (fun r => r.id) = some tid ∧
        questionRowsFor (persistTopicsLoop sid cls ch batch db) tid cls =
          ((lastWithName t.name batch).getD t).items.map (toQuestionRow tid cls) ∧
        ∀ r0, findTopic db sid t.name cls = some r0 → tid = r0.id := by
  intro batch
  induction batch with
  | nil => intro db _ t ht; simp at ht
  | cons t0 rest ih =>
    intro db hWF t ht
    have hWF1 := WF_persistTopicStep sid cls ch t0 db hWF
    by_cases hin : t.name ∈ rest.map (fun x => x.name)
    · obtain ⟨t', ht', hname⟩ := List.mem_map.mp hin
      obtain ⟨tid, hfind, hrows, hstab⟩ :=
        ih (persistTopicStep sid cls ch t0 db) hWF1 t' ht'
      rw [hname] at hfind hrows hstab
      have heq1 := lastWithName_cons_of_mem t.name t0 rest t' ht' hname
      have hmem : t' ∈ rest.filter (fun x => x.name = t.name) :=
        List.mem_filter.mpr ⟨ht', by simp [hname]⟩
      obtain ⟨x, hx⟩ : ∃ x, lastWithName t.name rest = some x := by
        apply getLast?_exists
        intro hn
        rw [hn] at hmem
        simp at hmem
      refine ⟨tid, ?_, ?_, ?_⟩
      · exact hfind
      · show questionRowsFor (persistTopicsLoop sid cls ch rest
            (persistTopicStep sid cls ch t0 db)) tid cls = _
        rw [heq1, hx, hrows, hx]
        simp
      · intro r0 h0
        have hmap := findTopic_step_mapid sid cls ch t0 db t.name r0 h0
        obtain ⟨r1, hr1, hr1id⟩ := Option.map_eq_some'.mp hmap
        rw [← hr1id]
        exact hstab r1 hr1
    · have hnames : ∀ t' ∈ rest, t'.name ≠ t.name := by
        intro t' ht' heq
        exact hin (List.mem_map.mpr ⟨t', ht', heq⟩)
      have ht0 : t = t0 := by
        rcases List.mem_cons.mp ht with h | h
        · exact h
        · exact absurd rfl (hnames t h)
      subst ht0
      have hself := persistTopicStep_self sid cls ch t db
      obtain ⟨r1, hr1, hr1id⟩ := Option.map_eq_some'.mp hself.1
      obtain ⟨hp1, hp2⟩ := persistTopicsLoop_preserves sid cls ch rest
        (persistTopicStep sid cls ch t db) t.name r1 hWF1
        hnames hr1
      refine ⟨(upsertTopic db sid t.name cls ch).1, ?_, ?_, ?_⟩
      · show (findTopic (persistTopicsLoop sid cls ch rest
            (persistTopicStep sid cls ch t db)) sid t.name cls).map
              (fun r => r.id) = _
        rw [hp1, hr1id]
      · show questionRowsFor (persistTopicsLoop sid cls ch rest
            (persistTopicStep sid cls ch t db)) _ cls = _
        rw [lastWithName_self t rest hnames]
        rw [← hr1id] at hself ⊢
        rw [hp2, hself.2]
        simp
      · intro r0 h0
        exact upsertTopic_id_stable db sid t.name cls ch r0 h0

end Clarytix

namespace Clarytix

theorem persistChapterToDatabase_spec (a : PersistArgs) (db : Db)
    (hWF : WFdb db) :
    ∀ t ∈ a.topics, ∃ tid,
      (findTopic (persistChapterToDatabase a db) a.subjectId t.name
          (classLabelOf a.classLevel)).map (fun r => r.id) = some tid ∧
      questionRowsFor (persistChapterToDatabase a db) tid
          (classLabelOf a.classLevel) =
        ((lastWithName t.name a.topics).getD t).items.map
          (toQuestionRow tid (classLabelOf a.classLevel)) ∧
      ∀ r0, findTopic db a.subjectId t.name (classLabelOf a.classLevel) =
          some r0 → tid = r0.id := by
  intro t ht
  obtain ⟨tid, h1, h2, h3⟩ := persistTopicsLoop_spec a.subjectId
    (classLabelOf a.classLevel) (resolveChapter a db).1 a.topics
    (resolveChapter a db).2 (WF_resolveChapter a db hWF) t ht
  refine ⟨tid, h1, h2, ?_⟩
  intro r0 h0
  apply h3
  show findTopic (resolveChapter a db).2 _ _ _ = _
  unfold findTopic at h0 ⊢
  rw [(resolveChapter_frame a db).1]
  exact h0

/-- Running the persistence writer twice from the same arguments leaves,
for every batch topic, exactly the question rows one run leaves. -/
theorem persistChapterToDatabase_twice (a : PersistArgs) (db : Db)
    (hWF : WFdb db) :
    ∀ t ∈ a.topics, ∃ tid,
      (findTopic (persistChapterToDatabase a (persistChapterToDatabase a db))
          a.subjectId t.name (classLabelOf a.classLevel)).map
            (fun r => r.id) = some tid ∧
      questionRowsFor (persistChapterToDatabase a (persistChapterToDatabase a db))
          tid (classLabelOf a.classLevel) =
        questionRowsFor (persistChapterToDatabase a db) tid
          (classLabelOf a.classLevel) := by
  intro t ht
  obtain ⟨tid1, f1, r1, _⟩ := persistChapterToDatabase_spec a db hWF t ht
  obtain ⟨tid2, f2, r2, s2⟩ := persistChapterToDatabase_spec a
    (persistChapterToDatabase a db) (WF_persistChapterToDatabase a db hWF) t ht
  obtain ⟨rr, hrr, hrrid⟩ := Option.map_eq_some'.mp f1
  have htid : tid2 = tid1 := by rw [s2 rr hrr, hrrid]
  subst htid
  exact ⟨tid2, f2, r2.trans r1.symm⟩

/-- The topic batch a persistence-retry run hands to the persistence
writer: re-clone the snapshot, run the validator loop, drop failed
topics, rebalance with a fresh count vector (route.ts lines 1446–1459,
777–902). -/
def pipelineTopics (responses : Nat → List ValTopicSummary)
    (rss : List (List ItemRands)) (snapshot : List StoredTopicMcqs) :
    List PersistTopic :=
  ((balanceTopics (successfulTopics (validationLoop responses snapshot))
      [0, 0, 0, 0] rss).1).map (fun tp => ⟨tp.topic, tp.items⟩)

/-- One invocation of the persistence-retry entry point, determinised by
its validator responses and random draws.  (When every topic fails
validation the source returns before persisting; that branch has no
surviving topics, so the per-topic theorem below is unaffected.) -/
def retryPersistenceRun (responses : Nat → List ValTopicSummary)
    (rss : List (List ItemRands)) (base : PersistArgs)
    (snapshot : List StoredTopicMcqs) (db : Db) : Db :=
  persistChapterToDatabase
    { base with topics := pipelineTopics responses rss snapshot } db

/-- **C4** — invoking the persistence-retry entry point twice in a row on
an unchanged snapshot (same validator responses and random draws, so both
runs persist the same surviving batch) leaves, for every surviving topic,
the same question rows as invoking it once: each run deletes all rows for
the topic/class pair before inserting its set. -/
theorem retryPersistence_twice_same_rows
    (responses : Nat → List ValTopicSummary) (rss : List (List ItemRands))
    (base : PersistArgs) (snapshot : List StoredTopicMcqs) (db : Db)
    (hWF : WFdb db) :
    ∀ t ∈ pipelineTopics responses rss snapshot, ∃ tid,
      (findTopic
          (retryPersistenceRun responses rss base snapshot
            (retryPersistenceRun responses rss base snapshot db))
          base.subjectId t.name (classLabelOf base.classLevel)).map
            (fun r => r.id) = some tid ∧
      questionRowsFor
          (retryPersistenceRun responses rss base snapshot
            (retryPersistenceRun responses rss base snapshot db))
          tid (classLabelOf base.classLevel) =
        questionRowsFor (retryPersistenceRun responses rss base snapshot db)
          tid (classLabelOf base.classLevel) := by
  intro t ht
  exact persistChapterToDatabase_twice
    { base with topics := pipelineTopics responses rss snapshot } db hWF t ht

end Clarytix

namespace Clarytix

/-- Witness for C4: a one-topic snapshot, approve-all validator, empty
database. -/
theorem retryPersistence_twice_same_rows_witness :
    ∃ tid,
      (findTopic
          (retryPersistenceRun (fun _ => []) [[⟨[0, 1], 0⟩]]
            ⟨9, 5, 1, "Ch", "CBSE", []⟩
            [⟨"A", [⟨"Remember", "Easy", "Q", ["a", "b", "c", "d"], 0, "E",
              "recall", none⟩]⟩]
            (retryPersistenceRun (fun _ => []) [[⟨[0, 1], 0⟩]]
              ⟨9, 5, 1, "Ch", "CBSE", []⟩
              [⟨"A", [⟨"Remember", "Easy", "Q", ["a", "b", "c", "d"], 0, "E",
                "recall", none⟩]⟩]
              ⟨[], [], [], 0, 0⟩))
          (5 : Int) "A" (classLabelOf 9)).map (fun r => r.id) = some tid ∧
      questionRowsFor
          (retryPersistenceRun (fun _ => []) [[⟨[0, 1], 0⟩]]
            ⟨9, 5, 1, "Ch", "CBSE", []⟩
            [⟨"A", [⟨"Remember", "Easy", "Q", ["a", "b", "c", "d"], 0, "E",
              "recall", none⟩]⟩]
            (retryPersistenceRun (fun _ => []) [[⟨[0, 1], 0⟩]]
              ⟨9, 5, 1, "Ch", "CBSE", []⟩
              [⟨"A", [⟨"Remember", "Easy", "Q", ["a", "b", "c", "d"], 0, "E",
                "recall", none⟩]⟩]
              ⟨[], [], [], 0, 0⟩))
          tid (classLabelOf 9) =
        questionRowsFor
          (retryPersistenceRun (fun _ => []) [[⟨[0, 1], 0⟩]]
            ⟨9, 5, 1, "Ch", "CBSE", []⟩
            [⟨"A", [⟨"Remember", "Easy", "Q", ["a", "b", "c", "d"], 0, "E",
              "recall", none⟩]⟩]
            ⟨[], [], [], 0, 0⟩)
          tid (classLabelOf 9) :=
  retryPersistence_twice_same_rows (fun _ => []) [[⟨[0, 1], 0⟩]]
    ⟨9, 5, 1, "Ch", "CBSE", []⟩
    [⟨"A", [⟨"Remember", "Easy", "Q", ["a", "b", "c", "d"], 0, "E",
      "recall", none⟩]⟩]
    ⟨[], [], [], 0, 0⟩
    ⟨by simp, by simp⟩
    ⟨"A", [⟨"Remember", "Easy", "Q", ["a", "d", "c", "b"], 0, "E",
      "recall", none⟩]⟩
    (by decide)

end Clarytix

namespace Clarytix

/-! ## Transactional persistence with failure injection
(route.ts lines 967–1078)

Each `client.query` becomes a counted transaction step; `failAt` injects a
database failure at one step.  `BEGIN` opens a working copy, `COMMIT`
publishes it; the `catch` block's `ROLLBACK` discards it and rethrows. -/

structure TxState where
  work : Db
  counter : Nat
  deriving Repr, DecidableEq

/-- One effect-only query inside the transaction. -/
def txStep (failAt : Option Nat) (st : TxState) (eff : Db → Db) :
    Except Unit TxState :=
  if failAt = some st.counter then Except.error ()
  else Except.ok ⟨eff st.work, st.counter + 1⟩

/-- One value-returning query inside the transaction. -/
def txQueryVal {α : Type} (failAt : Option Nat) (st : TxState)
    (f : Db → α × Db) : Except Unit (α × TxState) :=
  if failAt = some st.counter then Except.error ()
  else Except.ok ((f st.work).1, ⟨(f st.work).2, st.counter + 1⟩)

/-- Chapter resolution inside the transaction (route.ts lines 970–1014). -/
def resolveChapterTx (a : PersistArgs) (failAt : Option Nat)
    (st : TxState) : Except Unit (Nat × TxState) := do
  let cls := classLabelOf a.classLevel
  let title := a.chapterTitle.trim
  let legacy := ("Chapter " ++ toString a.chapterNumber ++ ": " ++ title).trim
  let syl := a.syllabusName.trim
  let found ← txQueryVal failAt st (fun db => (findChapter db a.subjectId cls title, db))
  match found.1 with
  | some row =>
    if (row.syllabus.getD "").trim ≠ syl then do
      let st2 ← txStep failAt found.2 (fun db => updateChapterSyllabus db row.id syl)
      pure (row.id, st2)
    else pure (row.id, found.2)
  | none => do
    let legacyFound ← txQueryVal failAt found.2
      (fun db => (findChapter db a.subjectId cls legacy, db))
    match legacyFound.1 with
    | some row => do
      let st2 ← txStep failAt legacyFound.2
        (fun db => updateChapterName db row.id title)
      if (row.syllabus.getD "").trim ≠ syl then do
        let st3 ← txStep failAt st2 (fun db => updateChapterSyllabus db row.id syl)
        pure (row.id, st3)
      else pure (row.id, st2)
    | none => do
      let ins ← txQueryVal failAt legacyFound.2
        (fun db => insertChapter db a.subjectId cls title syl)
      pure ins

/-- The per-item question `INSERT`s (route.ts lines 1034–1067). -/
def insertQuestionsTx (failAt : Option Nat) (tid : Nat) (cls : String) :
    List StoredMcqItem → TxState → Except Unit TxState
  | [], st => Except.ok st
  | it :: rest, st => do
    let st1 ← txStep failAt st
      (fun db => { db with questions := db.questions ++ [toQuestionRow tid cls it] })
    insertQuestionsTx failAt tid cls rest st1

/-- The per-topic loop inside the transaction (route.ts lines 1016–1069). -/
def persistTopicsLoopTx (failAt : Option Nat) (sid : Int) (cls : String)
    (ch : Nat) : List PersistTopic → TxState → Except Unit TxState
  | [], st => Except.ok st
  | t :: ts, st => do
    let up ← txQueryVal failAt st (fun db => upsertTopic db sid t.name cls ch)
    let st2 ← txStep failAt up.2 (fun db => deleteQuestions db up.1 cls)
    let st3 ← insertQuestionsTx failAt up.1 cls t.items st2
    persistTopicsLoopTx failAt sid cls ch ts st3

/-- The whole `try` block: `BEGIN`, chapter resolution, topic loop,
`COMMIT`. -/
def persistTxRun (a : PersistArgs) (db : Db) (failAt : Option Nat) :
    Except Unit TxState := do
  let st1 ← txStep failAt ⟨db, 0⟩ (fun d => d)
  let r ← resolveChapterTx a failAt st1
  let st3 ← persistTopicsLoopTx failAt a.subjectId (classLabelOf a.classLevel)
    r.1 a.topics r.2
  txStep failAt st3 (fun d => d)

end Clarytix

namespace Clarytix

/-- `persistChapterToDatabase` with the transaction made explicit: on
success the working copy is committed; on any query failure the `catch`
issues `ROLLBACK` (the working copy is discarded, the visible store is
the original) and rethrows (`Bool` = an error propagated to the
caller). -/
def persistChapterToDatabaseTx (a : PersistArgs) (db : Db)
    (failAt : Option Nat) : Db × Bool :=
  match persistTxRun a db failAt with
  | Except.ok st => (st.work, false)
  | Except.error _ => (db, true)

/-- The mutable job-record fields the persistence `catch` of
`validateAndFinalizeJob` touches. -/
structure JobRecordM where
  status : JobStatus
  error : Option String
  generatedTopics : Option (List StoredTopicMcqs)
  allowValidationRetry : Bool
  allowPersistenceRetry : Bool
  deriving Repr, DecidableEq

/-- The record update in that `catch` (route.ts lines 903–916). -/
def persistCatchUpdate (r : JobRecordM) : JobRecordM :=
  { r with
      status := JobStatus.failed
      error := some "Failed to persist MCQs to the database."
      allowValidationRetry := false
      allowPersistenceRetry := snapshotNonempty r.generatedTopics }

/-- **C8** — when any query of a persistence attempt fails, the visible
database is unchanged (rollback), the error reaches the orchestrator,
which marks the job failed, leaves the generated-content snapshot intact,
clears the validation-retry flag and sets the persistence-retry flag
exactly when the snapshot is nonempty. -/
theorem persistence_failure_rollback (a : PersistArgs) (db : Db)
    (failAt : Option Nat) (r : JobRecordM)
    (h : (persistChapterToDatabaseTx a db failAt).2 = true) :
    (persistChapterToDatabaseTx a db failAt).1 = db ∧
    (persistCatchUpdate r).status = JobStatus.failed ∧
    (persistCatchUpdate r).generatedTopics = r.generatedTopics ∧
    (persistCatchUpdate r).allowValidationRetry = false ∧
    (persistCatchUpdate r).allowPersistenceRetry =
      snapshotNonempty r.generatedTopics := by
  refine ⟨?_, rfl, rfl, rfl, rfl⟩
  unfold persistChapterToDatabaseTx at h ⊢
  cases hrun : persistTxRun a db failAt with
  | ok st => rw [hrun] at h; simp at h
  | error e => rfl

/-- Witness for C8: the very first query (`BEGIN`) fails on a job with a
one-topic snapshot. -/
theorem persistence_failure_rollback_witness :
    (persistChapterToDatabaseTx ⟨9, 5, 1, "Ch", "CBSE", []⟩
        ⟨[], [], [], 0, 0⟩ (some 0)).1 = ⟨[], [], [], 0, 0⟩ ∧
    (persistCatchUpdate ⟨JobStatus.processing, none,
        some [⟨"A", []⟩], false, false⟩).status = JobStatus.failed ∧
    (persistCatchUpdate ⟨JobStatus.processing, none,
        some [⟨"A", []⟩], false, false⟩).generatedTopics =
      some [⟨"A", []⟩] ∧
    (persistCatchUpdate ⟨JobStatus.processing, none,
        some [⟨"A", []⟩], false, false⟩).allowValidationRetry = false ∧
    (persistCatchUpdate ⟨JobStatus.processing, none,
        some [⟨"A", []⟩], false, false⟩).allowPersistenceRetry =
      snapshotNonempty (some [⟨"A", []⟩]) :=
  persistence_failure_rollback ⟨9, 5, 1, "Ch", "CBSE", []⟩
    ⟨[], [], [], 0, 0⟩ (some 0)
    ⟨JobStatus.processing, none, some [⟨"A", []⟩], false, false⟩
    (by decide)

end Clarytix

namespace Clarytix

/-! ## Snapshot immutability (route.ts lines 746–752, 777–780, 832–850,
1302–1316, 1384–1387, 1449–1452)

The mutable JavaScript arrays holding each topic's MCQ items are modelled
as cells of an explicit heap; `record.generatedTopics` is a list of
(topic name, cell) pairs.  `cloneMcqItem` copies every mutable part of an
item, so items themselves are values; the only in-place mutations of the
whole pipeline are the element writes `bucket.items[verdict.index] = …`
into the cells of the pass-local working copy (the balancer and the
replacement normalizer build fresh arrays, and `correctCounts` is created
per pass at line 879).  A verdict naming a topic or question index out of
range makes the source run throw; the model makes that write a no-op —
either way the write set below is a superset of the writes any source run
performs. -/

/-- A heap of item arrays, addressed by allocation order. -/
abbrev Heap : Type := List (List StoredMcqItem)

def heapLookup (h : Heap) (r : Nat) : List StoredMcqItem :=
  List.getD h r []

def heapAlloc (h : Heap) (v : List StoredMcqItem) : Nat × Heap :=
  (List.length h, h ++ [v])

def heapWrite (h : Heap) (r : Nat) (v : List StoredMcqItem) : Heap :=
  List.set h r v

/-- The capture `record.generatedTopics = generatedTopics.map(… cloneMcqItem)`
(route.ts lines 1304–1307): one fresh array per topic. -/
def captureSnapshot : List StoredTopicMcqs → Heap → List (String × Nat) × Heap
  | [], h => ([], h)
  | t :: ts, h =>
    let a := heapAlloc h (t.items.map cloneMcqItem)
    let rest := captureSnapshot ts a.2
    ((t.topic, a.1) :: rest.1, rest.2)

/-- One re-clone of a list of topic cells (route.ts lines 777–780 and the
identical per-run clones at 1313, 1384, 1449). -/
def cloneTopicRefs : List (String × Nat) → Heap → List (String × Nat) × Heap
  | [], h => ([], h)
  | (name, r) :: rs, h =>
    let a := heapAlloc h ((heapLookup h r).map cloneMcqItem)
    let rest := cloneTopicRefs rs a.2
    ((name, a.1) :: rest.1, rest.2)

/-- The two clones every run performs before validating: the caller's
clone of the snapshot and `validateAndFinalizeJob`'s own. -/
def cloneForRun (snapRefs : List (String × Nat)) (h : Heap) :
    List (String × Nat) × Heap :=
  cloneTopicRefs (cloneTopicRefs snapRefs h).1 (cloneTopicRefs snapRefs h).2

/-- The heap writes of the inner verdict `forEach` (route.ts lines
833–849): `bucket.items[verdict.index] = normalizeReplacementMcq(…)`. -/
def applyVerdictsGoH (topicIndex : Nat) :
    List VerdictR → List (String × Nat) → Heap → Heap
  | [], _, h => h
  | v :: rest, refs, h =>
    if v.verdict = "reject" then
      match v.replacementMcq with
      | none => applyVerdictsGoH topicIndex rest refs h
      | some rep =>
        let r := (refs.getD topicIndex ("", List.length h)).2
        let items := heapLookup h r
        let fallback := items.getD v.index undefinedItem
        applyVerdictsGoH topicIndex rest refs
          (heapWrite h r (items.set v.index (normalizeReplacementMcq rep fallback)))
    else applyVerdictsGoH topicIndex rest refs h

def applyReplacementsGoH :
    List ValTopicSummary → Nat → List (String × Nat) → Heap → Heap
  | [], _, _, h => h
  | ts :: rest, topicIndex, refs, h =>
    applyReplacementsGoH rest (topicIndex + 1) refs
      (applyVerdictsGoH topicIndex ts.verdicts refs h)

/-- Whether some reject carried a replacement (= the source's
`replacedAny`, which depends only on the summaries). -/
def hasReplacement (summaries : List ValTopicSummary) : Bool :=
  summaries.any (fun ts => ts.verdicts.any
    (fun v => v.verdict = "reject" ∧ v.replacementMcq.isSome))

/-- The attempt loop's heap effect (route.ts lines 784–857): working-copy
cells are written, nothing else. -/
def validationAttemptsH (responses : Nat → List ValTopicSummary) :
    Nat → Nat → List (String × Nat) → Heap → Heap
  | _, 0, _, h => h
  | attempt, rem + 1, refs, h =>
    let summaries := responses attempt
    let rejected := summaries.filter
      (fun ts => ts.verdicts.any (fun v => v.verdict = "reject"))
    if rejected.isEmpty then h
    else
      let h' := applyReplacementsGoH summaries 0 refs h
      if hasReplacement summaries then
        validationAttemptsH responses (attempt + 1) rem refs h'
      else h'

/-- Everything one validation run does to the heap. -/
def validationPassH (responses : Nat → List ValTopicSummary)
    (snapRefs : List (String × Nat)) (h : Heap) : Heap :=
  validationAttemptsH responses 1 MAX_VALIDATION_ATTEMPTS
    (cloneForRun snapRefs h).1 (cloneForRun snapRefs h).2

end Clarytix

namespace Clarytix

/-! ### The snapshot frame argument -/

theorem cloneMcqItem_id (item : StoredMcqItem) : cloneMcqItem item = item := by
  unfold cloneMcqItem
  cases item with
  | mk bloom difficulty stem options ci expl ty spans =>
    cases spans with
    | none => rfl
    | some l =>
      simp only [Option.map_some']
      congr 2
      induction l with
      | nil => rfl
      | cons s t ih => cases s; simp [ih]

theorem cloneItems_id (items : List StoredMcqItem) :
    items.map cloneMcqItem = items := by
  induction items with
  | nil => rfl
  | cons a t ih => simp [cloneMcqItem_id, ih]

theorem getD_of_le {α : Type} (l : List α) (i : Nat) (d : α)
    (h : List.length l ≤ i) : l.getD i d = d := by
  simp [List.getD_eq_getD_get?, List.getElem?_eq_none h]

theorem heapLookup_append_lt (h : Heap) (l : Heap) (r : Nat)
    (hr : r < List.length h) : heapLookup (h ++ l) r = heapLookup h r := by
  simp [heapLookup, List.getD_eq_getD_get?, List.getElem?_append_left hr]

theorem heapLookup_alloc_self (h : Heap) (v : List StoredMcqItem) :
    heapLookup (h ++ [v]) (List.length h) = v := by
  simp [heapLookup, List.getD_eq_getD_get?]

theorem heapLookup_write_ne (h : Heap) (r : Nat) (v : List StoredMcqItem)
    (r' : Nat) (hne : r ≠ r') :
    heapLookup (heapWrite h r v) r' = heapLookup h r' := by
  simp [heapWrite, heapLookup, List.getD_eq_getD_get?,
    List.getElem?_set_ne hne]

theorem captureSnapshot_grow : ∀ (gen : List StoredTopicMcqs) (h0 : Heap),
    List.length h0 ≤ List.length (captureSnapshot gen h0).2 ∧
    ∀ r, r < List.length h0 →
      heapLookup (captureSnapshot gen h0).2 r = heapLookup h0 r := by
  intro gen
  induction gen with
  | nil => intro h0; exact ⟨Nat.le_refl _, fun _ _ => rfl⟩
  | cons t ts ih =>
    intro h0
    simp only [captureSnapshot, heapAlloc]
    obtain ⟨ih1, ih2⟩ := ih (h0 ++ [t.items.map cloneMcqItem])
    constructor
    · refine le_trans ?_ ih1
      simp
    · intro r hr
      rw [ih2 r (by simp; omega)]
      exact heapLookup_append_lt h0 _ r hr

theorem captureSnapshot_refs_bounds :
    ∀ (gen : List StoredTopicMcqs) (h0 : Heap),
      ∀ p ∈ (captureSnapshot gen h0).1,
        List.length h0 ≤ p.2 ∧ p.2 < List.length (captureSnapshot gen h0).2 := by
  intro gen
  induction gen with
  | nil => intro h0 p hp; simp [captureSnapshot] at hp
  | cons t ts ih =>
    intro h0 p hp
    simp only [captureSnapshot, heapAlloc, List.mem_cons] at hp ⊢
    rcases hp with rfl | hp
    · refine ⟨Nat.le_refl _, ?_⟩
      have h1 := (captureSnapshot_grow ts (h0 ++ [t.items.map cloneMcqItem])).1
      simp at h1
      omega
    · obtain ⟨hp1, hp2⟩ := ih (h0 ++ [t.items.map cloneMcqItem]) p hp
      refine ⟨?_, hp2⟩
      simp at hp1
      omega

theorem captureSnapshot_content :
    ∀ (gen : List StoredTopicMcqs) (h0 : Heap),
      List.Forall₂ (fun (t : StoredTopicMcqs) (nr : String × Nat) =>
        nr.1 = t.topic ∧
        heapLookup (captureSnapshot gen h0).2 nr.2 = t.items)
        gen (captureSnapshot gen h0).1 := by
  intro gen
  induction gen with
  | nil => intro h0; exact List.Forall₂.nil
  | cons t ts ih =>
    intro h0
    simp only [captureSnapshot, heapAlloc]
    refine List.Forall₂.cons ⟨rfl, ?_⟩ (ih (h0 ++ [t.items.map cloneMcqItem]))
    rw [(captureSnapshot_grow ts (h0 ++ [t.items.map cloneMcqItem])).2
      (List.length h0) (by simp)]
    rw [heapLookup_alloc_self, cloneItems_id]

theorem cloneTopicRefs_grow : ∀ (refs : List (String × Nat)) (h : Heap),
    List.length h ≤ List.length (cloneTopicRefs refs h).2 ∧
    ∀ r, r < List.length h →
      heapLookup (cloneTopicRefs refs h).2 r = heapLookup h r := by
  intro refs
  induction refs with
  | nil => intro h; exact ⟨Nat.le_refl _, fun _ _ => rfl⟩
  | cons nr rs ih =>
    intro h
    obtain ⟨name, r⟩ := nr
    simp only [cloneTopicRefs, heapAlloc]
    obtain ⟨ih1, ih2⟩ := ih (h ++ [(heapLookup h r).map cloneMcqItem])
    constructor
    · refine le_trans ?_ ih1
      simp
    · intro r' hr'
      rw [ih2 r' (by simp; omega)]
      exact heapLookup_append_lt h _ r' hr'

theorem cloneTopicRefs_refs_bounds :
    ∀ (refs : List (String × Nat)) (h : Heap),
      ∀ p ∈ (cloneTopicRefs refs h).1,
        List.length h ≤ p.2 ∧ p.2 < List.length (cloneTopicRefs refs h).2 := by
  intro refs
  induction refs with
  | nil => intro h p hp; simp [cloneTopicRefs] at hp
  | cons nr rs ih =>
    intro h p hp
    obtain ⟨name, r⟩ := nr
    simp only [cloneTopicRefs, heapAlloc, List.mem_cons] at hp ⊢
    rcases hp with rfl | hp
    · refine ⟨Nat.le_refl _, ?_⟩
      have h1 := (cloneTopicRefs_grow rs
        (h ++ [(heapLookup h r).map cloneMcqItem])).1
      simp at h1
      omega
    · obtain ⟨hp1, hp2⟩ := ih (h ++ [(heapLookup h r).map cloneMcqItem]) p hp
      refine ⟨?_, hp2⟩
      simp at hp1
      omega

/-- Cloning a valid list of cells copies exactly the contents those cells
have in any base heap the working heap extends. -/
theorem cloneTopicRefs_content :
    ∀ (refs : List (String × Nat)) (h hbase : Heap),
      (∀ p ∈ refs, p.2 < List.length hbase) →
      List.length hbase ≤ List.length h →
      (∀ r, r < List.length hbase → heapLookup h r = heapLookup hbase r) →
      List.Forall₂ (fun (nr nr' : String × Nat) =>
        nr'.1 = nr.1 ∧
        heapLookup (cloneTopicRefs refs h).2 nr'.2 = heapLookup hbase nr.2)
        refs (cloneTopicRefs refs h).1 := by
  intro refs
  induction refs with
  | nil => intro h hbase _ _ _; exact List.Forall₂.nil
  | cons nr rs ih =>
    intro h hbase hvalid hlen hpres
    obtain ⟨name, r⟩ := nr
    have hr : r < List.length hbase := hvalid (name, r) (List.mem_cons_self _ _)
    simp only [cloneTopicRefs, heapAlloc]
    refine List.Forall₂.cons ⟨rfl, ?_⟩ ?_
    · rw [(cloneTopicRefs_grow rs (h ++ [(heapLookup h r).map cloneMcqItem])).2
        (List.length h) (by simp)]
      rw [heapLookup_alloc_self, cloneItems_id]
      exact hpres r hr
    · refine ih (h ++ [(heapLookup h r).map cloneMcqItem]) hbase
        (fun p hp => hvalid p (List.mem_cons_of_mem _ hp))
        (by simp; omega)
        ?_
      intro r' hr'
      rw [heapLookup_append_lt h _ r' (by omega)]
      exact hpres r' hr'

end Clarytix

namespace Clarytix

theorem heapWrite_length (h : Heap) (r : Nat) (v : List StoredMcqItem) :
    List.length (heapWrite h r v) = List.length h := by
  simp [heapWrite]

theorem applyVerdictsGoH_frame (topicIndex : Nat) :
    ∀ (verdicts : List VerdictR) (refs : List (String × Nat)) (h : Heap)
      (N : Nat), N ≤ List.length h → (∀ p ∈ refs, N ≤ p.2) →
      List.length (applyVerdictsGoH topicIndex verdicts refs h) =
        List.length h ∧
      ∀ r, r < N →
        heapLookup (applyVerdictsGoH topicIndex verdicts refs h) r =
          heapLookup h r := by
  intro verdicts
  induction verdicts with
  | nil => intro refs h N _ _; exact ⟨rfl, fun _ _ => rfl⟩
  | cons v rest ih =>
    intro refs h N hN hrefs
    simp only [applyVerdictsGoH]
    by_cases hv : v.verdict = "reject"
    · rw [if_pos hv]
      cases v.replacementMcq with
      | none => exact ih refs h N hN hrefs
      | some rep =>
        dsimp only
        have hge : N ≤ (refs.getD topicIndex ("", List.length h)).2 := by
          by_cases hlt : topicIndex < refs.length
          · exact hrefs _ (getD_mem_of_lt refs topicIndex _ hlt)
          · rw [getD_of_le refs topicIndex _ (by omega)]
            exact hN
        obtain ⟨ihlen, ihpres⟩ := ih refs
          (heapWrite h (refs.getD topicIndex ("", List.length h)).2
            ((heapLookup h (refs.getD topicIndex ("", List.length h)).2).set
              v.index (normalizeReplacementMcq rep
                ((heapLookup h
                  (refs.getD topicIndex ("", List.length h)).2).getD
                    v.index undefinedItem))))
          N (by rw [heapWrite_length]; exact hN) hrefs
        refine ⟨by rw [ihlen, heapWrite_length], ?_⟩
        intro r hrN
        rw [ihpres r hrN, heapLookup_write_ne _ _ _ r (by omega)]
    · rw [if_neg hv]
      exact ih refs h N hN hrefs

theorem applyReplacementsGoH_frame :
    ∀ (summaries : List ValTopicSummary) (topicIndex : Nat)
      (refs : List (String × Nat)) (h : Heap) (N : Nat),
      N ≤ List.length h → (∀ p ∈ refs, N ≤ p.2) →
      List.length (applyReplacementsGoH summaries topicIndex refs h) =
        List.length h ∧
      ∀ r, r < N →
        heapLookup (applyReplacementsGoH summaries topicIndex refs h) r =
          heapLookup h r := by
  intro summaries
  induction summaries with
  | nil => intro topicIndex refs h N _ _; exact ⟨rfl, fun _ _ => rfl⟩
  | cons ts rest ih =>
    intro topicIndex refs h N hN hrefs
    simp only [applyReplacementsGoH]
    obtain ⟨len1, pres1⟩ :=
      applyVerdictsGoH_frame topicIndex ts.verdicts refs h N hN hrefs
    obtain ⟨len2, pres2⟩ := ih (topicIndex + 1) refs
      (applyVerdictsGoH topicIndex ts.verdicts refs h) N
      (by rw [len1]; exact hN) hrefs
    refine ⟨by rw [len2, len1], ?_⟩
    intro r hrN
    rw [pres2 r hrN, pres1 r hrN]

theorem validationAttemptsH_frame (responses : Nat → List ValTopicSummary) :
    ∀ (rem attempt : Nat) (refs : List (String × Nat)) (h : Heap) (N : Nat),
      N ≤ List.length h → (∀ p ∈ refs, N ≤ p.2) →
      ∀ r, r < N →
        heapLookup (validationAttemptsH responses attempt rem refs h) r =
          heapLookup h r := by
  intro rem
  induction rem with
  | zero => intro attempt refs h N _ _ r _; rfl
  | succ rem ih =>
    intro attempt refs h N hN hrefs r hrN
    simp only [validationAttemptsH]
    by_cases hrej : ((responses attempt).filter
        (fun ts => ts.verdicts.any (fun v => v.verdict = "reject"))).isEmpty
    · rw [if_pos hrej]
    · rw [if_neg hrej]
      obtain ⟨len1, pres1⟩ := applyReplacementsGoH_frame (responses attempt) 0
        refs h N hN hrefs
      by_cases hrepl : hasReplacement (responses attempt)
      · rw [if_pos hrepl]
        rw [ih (attempt + 1) refs _ N (by rw [len1]; exact hN) hrefs r hrN]
        exact pres1 r hrN
      · rw [if_neg hrepl]
        exact pres1 r hrN

/-- The whole pass touches no cell that existed before it started. -/
theorem validationPassH_frame (responses : Nat → List ValTopicSummary)
    (snapRefs : List (String × Nat)) (h : Heap) :
    ∀ r, r < List.length h →
      heapLookup (validationPassH responses snapRefs h) r = heapLookup h r := by
  intro r hr
  unfold validationPassH cloneForRun
  obtain ⟨g1len, g1pres⟩ := cloneTopicRefs_grow snapRefs h
  obtain ⟨g2len, g2pres⟩ := cloneTopicRefs_grow
    (cloneTopicRefs snapRefs h).1 (cloneTopicRefs snapRefs h).2
  have hbounds := cloneTopicRefs_refs_bounds (cloneTopicRefs snapRefs h).1
    (cloneTopicRefs snapRefs h).2
  rw [validationAttemptsH_frame responses MAX_VALIDATION_ATTEMPTS 1 _ _
    (List.length h) (by omega)
    (fun p hp => le_trans g1len (hbounds p hp).1) r hr]
  rw [g2pres r (by omega), g1pres r hr]

end Clarytix

namespace Clarytix

theorem forall₂_chain {α β γ : Type} {R : α → β → Prop} {S : β → γ → Prop}
    {T : α → γ → Prop} (hc : ∀ a b c, R a b → S b c → T a c) :
    ∀ {l1 : List α} {l2 : List β} {l3 : List γ},
      List.Forall₂ R l1 l2 → List.Forall₂ S l2 l3 → List.Forall₂ T l1 l3 := by
  intro l1 l2 l3 h1 h2
  induction h1 generalizing l3 with
  | nil => cases h2; exact List.Forall₂.nil
  | cons hR hRs ih =>
    cases h2 with
    | cons hS hSs => exact List.Forall₂.cons (hc _ _ _ hR hS) (ih hSs)

/-- **C9** — the snapshot captured after generation is a deep copy equal
to the generation output; no validation or replacement-substitution
write of the run ever changes a snapshot cell; and the fresh clones the
run works on carry exactly the original generation output into
validation, so this holds for every run over the same snapshot. -/
theorem snapshot_capture_and_immutability (gen : List StoredTopicMcqs)
    (h0 : Heap) (responses : Nat → List ValTopicSummary) :
    List.Forall₂ (fun (t : StoredTopicMcqs) (nr : String × Nat) =>
        nr.1 = t.topic ∧
        heapLookup (captureSnapshot gen h0).2 nr.2 = t.items)
      gen (captureSnapshot gen h0).1 ∧
    (∀ p ∈ (captureSnapshot gen h0).1,
      heapLookup (validationPassH responses (captureSnapshot gen h0).1
          (captureSnapshot gen h0).2) p.2 =
        heapLookup (captureSnapshot gen h0).2 p.2) ∧
    List.Forall₂ (fun (t : StoredTopicMcqs) (nr : String × Nat) =>
        nr.1 = t.topic ∧
        heapLookup (cloneForRun (captureSnapshot gen h0).1
            (captureSnapshot gen h0).2).2 nr.2 = t.items)
      gen (cloneForRun (captureSnapshot gen h0).1
            (captureSnapshot gen h0).2).1 := by
  refine ⟨captureSnapshot_content gen h0, ?_, ?_⟩
  · intro p hp
    exact validationPassH_frame responses (captureSnapshot gen h0).1
      (captureSnapshot gen h0).2 p.2
      (captureSnapshot_refs_bounds gen h0 p hp).2
  · have hcap := captureSnapshot_content gen h0
    have hvalid1 : ∀ p ∈ (captureSnapshot gen h0).1,
        p.2 < List.length (captureSnapshot gen h0).2 :=
      fun p hp => (captureSnapshot_refs_bounds gen h0 p hp).2
    have hc1 := cloneTopicRefs_content (captureSnapshot gen h0).1
      (captureSnapshot gen h0).2 (captureSnapshot gen h0).2 hvalid1
      (Nat.le_refl _) (fun _ _ => rfl)
    obtain ⟨g1len, g1pres⟩ := cloneTopicRefs_grow (captureSnapshot gen h0).1
      (captureSnapshot gen h0).2
    have hvalid2 : ∀ p ∈ (cloneTopicRefs (captureSnapshot gen h0).1
        (captureSnapshot gen h0).2).1,
        p.2 < List.length (cloneTopicRefs (captureSnapshot gen h0).1
          (captureSnapshot gen h0).2).2 :=
      fun p hp => (cloneTopicRefs_refs_bounds _ _ p hp).2
    have hc2 := cloneTopicRefs_content
      (cloneTopicRefs (captureSnapshot gen h0).1 (captureSnapshot gen h0).2).1
      (cloneTopicRefs (captureSnapshot gen h0).1 (captureSnapshot gen h0).2).2
      (cloneTopicRefs (captureSnapshot gen h0).1 (captureSnapshot gen h0).2).2
      hvalid2 (Nat.le_refl _) (fun _ _ => rfl)
    have hchain1 := forall₂_chain
      (R := fun (t : StoredTopicMcqs) (nr : String × Nat) =>
        nr.1 = t.topic ∧
        heapLookup (captureSnapshot gen h0).2 nr.2 = t.items)
      (S := fun (nr nr' : String × Nat) =>
        nr'.1 = nr.1 ∧
        heapLookup (cloneTopicRefs (captureSnapshot gen h0).1
            (captureSnapshot gen h0).2).2 nr'.2 =
          heapLookup (captureSnapshot gen h0).2 nr.2)
      (T := fun (t : StoredTopicMcqs) (nr' : String × Nat) =>
        nr'.1 = t.topic ∧
        heapLookup (cloneTopicRefs (captureSnapshot gen h0).1
            (captureSnapshot gen h0).2).2 nr'.2 = t.items)
      (fun t nr nr' hR hS =>
        ⟨hS.1.trans hR.1, hS.2.trans hR.2⟩)
      hcap hc1
    exact forall₂_chain
      (fun t nr nr' hR hS => ⟨hS.1.trans hR.1, hS.2.trans hR.2⟩)
      hchain1 hc2

/-- Witness for C9: a one-topic generation output captured into an empty
heap, run against an approve-all validator. -/
theorem snapshot_immutability_witness :
    heapLookup
      (validationPassH (fun _ => [])
        (captureSnapshot [⟨"A", [⟨"Remember", "Easy", "Q",
          ["a", "b", "c", "d"], 0, "E", "recall", none⟩]⟩] []).1
        (captureSnapshot [⟨"A", [⟨"Remember", "Easy", "Q",
          ["a", "b", "c", "d"], 0, "E", "recall", none⟩]⟩] []).2)
      (("A", 0) : String × Nat).2 =
    heapLookup
      (captureSnapshot [⟨"A", [⟨"Remember", "Easy", "Q",
        ["a", "b", "c", "d"], 0, "E", "recall", none⟩]⟩] []).2
      (("A", 0) : String × Nat).2 :=
  (snapshot_capture_and_immutability
    [⟨"A", [⟨"Remember", "Easy", "Q", ["a", "b", "c", "d"], 0, "E",
      "recall", none⟩]⟩] [] (fun _ => [])).2.1 ("A", 0) (by decide)

end Clarytix
